import Mathlib

/-!
# MoCA-Enabler: a shallow embedding of `main.go`

The program logs into a router, asks whether MoCA is enabled and, if it is not,
posts a configuration update.  The embedding has three layers:

* the Go standard-library routines the program calls (`unicode/utf8`, `net/url`,
  `encoding/json`), modelled on byte strings;
* the process model: environment variables, the cookie jar, the network as an
  oracle, the log, `log.Fatal` and run-time panics;
* the functions of `main.go` themselves, under their Go names.

A Go `string` is a sequence of bytes; it is modelled as a list of naturals, each
below 256 for a string the program can really hold.
-/

namespace MoCA

/-! ## Byte strings -/

/-- A Go `string`: its bytes, in order. -/
abbrev GoString := List Nat

/-- Every element is a byte. -/
def isBytes (s : GoString) : Prop := ∀ b ∈ s, b < 256

instance (s : GoString) : Decidable (isBytes s) := by
  unfold isBytes; infer_instance

/-! ## `unicode/utf8` -/

/-- The constant `utf8.RuneError`, U+FFFD. -/
def RuneError : Nat := 0xFFFD

/-- The function `utf8.DecodeRune`: the first rune of `p` and its width in bytes;
`(RuneError, 0)` on the empty string and `(RuneError, 1)` on an invalid encoding.
Masks and shifts of the Go code are written as `%` and `*`. -/
def DecodeRune : GoString → Nat × Nat
  | [] => (RuneError, 0)
  | p0 :: rest =>
    if p0 < 0x80 then (p0, 1)
    else if p0 < 0xC2 then (RuneError, 1)
    else if p0 < 0xE0 then
      match rest with
      | b1 :: _ =>
        if b1 < 0x80 ∨ 0xBF < b1 then (RuneError, 1)
        else (p0 % 32 * 64 + b1 % 64, 2)
      | _ => (RuneError, 1)
    else if p0 < 0xF0 then
      match rest with
      | b1 :: b2 :: _ =>
        if b1 < (if p0 = 0xE0 then 0xA0 else 0x80) ∨ (if p0 = 0xED then 0x9F else 0xBF) < b1 then
          (RuneError, 1)
        else if b2 < 0x80 ∨ 0xBF < b2 then (RuneError, 1)
        else (p0 % 16 * 4096 + b1 % 64 * 64 + b2 % 64, 3)
      | _ => (RuneError, 1)
    else if p0 < 0xF5 then
      match rest with
      | b1 :: b2 :: b3 :: _ =>
        if b1 < (if p0 = 0xF0 then 0x90 else 0x80) ∨ (if p0 = 0xF4 then 0x8F else 0xBF) < b1 then
          (RuneError, 1)
        else if b2 < 0x80 ∨ 0xBF < b2 then (RuneError, 1)
        else if b3 < 0x80 ∨ 0xBF < b3 then (RuneError, 1)
        else (p0 % 8 * 262144 + b1 % 64 * 4096 + b2 % 64 * 64 + b3 % 64, 4)
      | _ => (RuneError, 1)
    else (RuneError, 1)

/-- The function `utf8.AppendRune` on an empty buffer: the UTF-8 encoding of `r`;
a surrogate or a value above U+10FFFF is encoded as U+FFFD. -/
def EncodeRune (r : Nat) : GoString :=
  if r ≤ 0x7F then [r]
  else if r ≤ 0x7FF then [0xC0 + r / 64, 0x80 + r % 64]
  else if 0x10FFFF < r ∨ (0xD800 ≤ r ∧ r ≤ 0xDFFF) then [0xEF, 0xBF, 0xBD]
  else if r ≤ 0xFFFF then [0xE0 + r / 4096, 0x80 + r / 64 % 64, 0x80 + r % 64]
  else [0xF0 + r / 262144, 0x80 + r / 4096 % 64, 0x80 + r / 64 % 64, 0x80 + r % 64]

/-- The loop of `utf8.ValidString`, with the string's length as fuel
(`validStringAux_fuel`). -/
def validStringAux : Nat → GoString → Bool
  | _, [] => true
  | 0, _ :: _ => false
  | fuel + 1, b :: rest =>
    let d := DecodeRune (b :: rest)
    if d.1 = RuneError ∧ d.2 = 1 then false
    else validStringAux fuel (rest.drop (d.2 - 1))

/-- The function `utf8.ValidString`: `s` consists of valid UTF-8 encodings only. -/
def ValidString (s : GoString) : Bool := validStringAux s.length s

/-- The bytes of a string literal of the Go source (source files are UTF-8). -/
def bytes (s : String) : GoString := s.toList.flatMap fun c => EncodeRune c.toNat

/-! ## `net/url` -/

/-- The function `shouldEscape` of `net/url` in mode `encodeQueryComponent`: only
ASCII letters, digits and `-`, `_`, `.`, `~` are left alone. -/
def shouldEscape (c : Nat) : Bool :=
  !((0x61 ≤ c && c ≤ 0x7A) || (0x41 ≤ c && c ≤ 0x5A) || (0x30 ≤ c && c ≤ 0x39)
    || c = 0x2D || c = 0x5F || c = 0x2E || c = 0x7E)

/-- Indexing of the constant `upperhex = "0123456789ABCDEF"`. -/
def upperhex (n : Nat) : Nat := if n < 10 then 0x30 + n else 0x37 + n

/-- The function `ishex` of `net/url`. -/
def ishex (c : Nat) : Bool :=
  (0x30 ≤ c && c ≤ 0x39) || (0x61 ≤ c && c ≤ 0x66) || (0x41 ≤ c && c ≤ 0x46)

/-- The function `unhex` of `net/url`. -/
def unhex (c : Nat) : Nat :=
  if 0x30 ≤ c ∧ c ≤ 0x39 then c - 0x30
  else if 0x61 ≤ c ∧ c ≤ 0x66 then c - 0x61 + 10
  else if 0x41 ≤ c ∧ c ≤ 0x46 then c - 0x41 + 10
  else 0

/-- The function `url.QueryEscape`: a space becomes `+`, a byte that must be
escaped becomes `%XX`, every other byte is copied. -/
def QueryEscape : GoString → GoString
  | [] => []
  | c :: rest =>
    (if c = 0x20 then [0x2B]
     else if shouldEscape c then [0x25, upperhex (c / 16), upperhex (c % 16)]
     else [c]) ++ QueryEscape rest

/-- The function `url.QueryUnescape`: the inverse of `QueryEscape`; `none` is the
`EscapeError` of a `%` that is not followed by two hex digits. -/
def QueryUnescape : GoString → Option GoString
  | [] => some []
  | c :: rest =>
    if c = 0x25 then
      match rest with
      | h1 :: h2 :: rest2 =>
        if ishex h1 && ishex h2 then
          (QueryUnescape rest2).map fun t => (unhex h1 * 16 + unhex h2) :: t
        else none
      | _ => none
    else if c = 0x2B then (QueryUnescape rest).map fun t => 0x20 :: t
    else (QueryUnescape rest).map fun t => c :: t

/-- A value of type `url.Values` (a `map[string][]string`), as an association list with
distinct keys. -/
abbrev Values := List (GoString × List GoString)

/-- Lexicographic order on byte strings, the order of Go's `<` on strings. -/
def strLt : GoString → GoString → Bool
  | _, [] => false
  | [], _ :: _ => true
  | a :: as, b :: bs => a < b || (a = b && strLt as bs)

/-- Insertion of an entry into a list sorted by key. -/
def insertByKey {α : Type} (e : GoString × α) : List (GoString × α) → List (GoString × α)
  | [] => [e]
  | x :: xs => if strLt x.1 e.1 then x :: insertByKey e xs else e :: x :: xs

/-- The entries of a Go map in the order of their sorted keys, the order in which
`Values.Encode` and `json.Marshal` visit a map. -/
def sortByKey {α : Type} : List (GoString × α) → List (GoString × α)
  | [] => []
  | e :: es => insertByKey e (sortByKey es)

/-- The loop body of `Values.Encode` over the sorted keys; `buf` is the builder so far. -/
def encodePairs (buf : GoString) : List (GoString × GoString) → GoString
  | [] => buf
  | (k, v) :: rest =>
    encodePairs
      ((if buf.length > 0 then buf ++ [0x26] else buf) ++ QueryEscape k ++ [0x3D] ++ QueryEscape v)
      rest

/-- The method `Values.Encode`: `key=value` pairs, keys sorted, joined by `&`. -/
def Values.Encode (v : Values) : GoString :=
  encodePairs [] ((sortByKey v).flatMap fun kv => kv.2.map fun x => (kv.1, x))

/-- The function `strings.Cut(s, sep)` for a one-byte separator: the text before the
first `sep` and the text after it; the whole of `s` and nothing when there is none. -/
def cut (sep : Nat) : GoString → GoString × GoString
  | [] => ([], [])
  | c :: cs => if c = sep then ([], cs) else ((cut sep cs).1.cons c, (cut sep cs).2)

/-- The pieces of `s` between the occurrences of `sep`. -/
def splitOn (sep : Nat) : GoString → List GoString
  | [] => [[]]
  | c :: cs =>
    if c = sep then [] :: splitOn sep cs
    else match splitOn sep cs with
      | [] => [[c]]
      | p :: ps => (c :: p) :: ps

/-- The statement `m[key] = append(m[key], value)` on a `url.Values`. -/
def Values.add (key value : GoString) : Values → Values
  | [] => [(key, [value])]
  | (k, vs) :: rest =>
    if k = key then (k, vs ++ [value]) :: rest else (k, vs) :: Values.add key value rest

/-- One round of the loop of `parseQuery` of `net/url`, for the piece `key` between two
`&`: the map and the no-error flag after it. -/
def parseQueryStep (acc : Values × Bool) (key : GoString) : Values × Bool :=
  if 0x3B ∈ key then (acc.1, false)
  else if key = [] then acc
  else
    match QueryUnescape (cut 0x3D key).1, QueryUnescape (cut 0x3D key).2 with
    | some k, some v => (Values.add k v acc.1, acc.2)
    | _, _ => (acc.1, false)

/-- The function `url.ParseQuery`: the decoded fields, and whether the error is `nil`. -/
def ParseQuery (query : GoString) : Values × Bool :=
  (splitOn 0x26 query).foldl parseQueryStep ([], true)

/-! ## `encoding/json`: encoding -/

/-- The table `htmlSafeSet` of `encoding/json`: the ASCII bytes that `json.Marshal` copies
into a string literal unescaped. -/
def htmlSafeSet (b : Nat) : Bool :=
  0x20 ≤ b && b < 0x80 && b != 0x22 && b != 0x5C && b != 0x3C && b != 0x3E && b != 0x26

/-- Indexing of the constant `hex = "0123456789abcdef"`. -/
def hex (n : Nat) : Nat := if n < 10 then 0x30 + n else 0x57 + n

/-- The `switch b` of `appendString`: the escape written for an ASCII byte that is not in
`htmlSafeSet`.  (Older releases of Go write `\u0008` and `\u000c` where this one writes `\b`
and `\f`; both spellings decode to the same byte.) -/
def escapeByte (b : Nat) : GoString :=
  if b = 0x5C ∨ b = 0x22 then [0x5C, b]
  else if b = 0x08 then [0x5C, 0x62]
  else if b = 0x0C then [0x5C, 0x66]
  else if b = 0x0A then [0x5C, 0x6E]
  else if b = 0x0D then [0x5C, 0x72]
  else if b = 0x09 then [0x5C, 0x74]
  else [0x5C, 0x75, 0x30, 0x30, hex (b / 16), hex (b % 16)]

/-- The loop of `appendString` (with `escapeHTML` set, as `json.Marshal` sets it), with the
string's length as fuel (`appendStringAux_fuel`): what is written between the two quotes. -/
def appendStringAux : Nat → GoString → GoString
  | _, [] => []
  | 0, _ :: _ => []
  | fuel + 1, b :: rest =>
    if b < 0x80 then
      (if htmlSafeSet b then [b] else escapeByte b) ++ appendStringAux fuel rest
    else
      let d := DecodeRune (b :: rest)
      if d.1 = RuneError ∧ d.2 = 1 then
        [0x5C, 0x75, 0x66, 0x66, 0x66, 0x64] ++ appendStringAux fuel rest
      else if d.1 = 0x2028 ∨ d.1 = 0x2029 then
        [0x5C, 0x75, 0x32, 0x30, 0x32, hex (d.1 % 16)] ++ appendStringAux fuel (rest.drop (d.2 - 1))
      else
        (b :: rest).take d.2 ++ appendStringAux fuel (rest.drop (d.2 - 1))

/-- The function `appendString` of `encoding/json`: the JSON string literal for `src`. -/
def appendString (src : GoString) : GoString :=
  0x22 :: (appendStringAux src.length src ++ [0x22])

/-- The loop of the map encoder over the entries in key order: a `,` before every entry but
the first. -/
def marshalEntries : List (GoString × GoString) → GoString
  | [] => []
  | [(k, v)] => appendString k ++ [0x3A] ++ appendString v
  | (k, v) :: e :: rest =>
    appendString k ++ [0x3A] ++ appendString v ++ [0x2C] ++ marshalEntries (e :: rest)

/-- The function `json.Marshal` on a `map[string]string`, given as an association list with
distinct keys: the entries are written in the order of their sorted keys.  It returns no
error on such a map. -/
def Marshal (m : List (GoString × GoString)) : GoString :=
  0x7B :: (marshalEntries (sortByKey m) ++ [0x7D])

/-! ## `encoding/json`: decoding -/

/-- A value as `json.Unmarshal` stores it in an `interface{}`: `nil`, `bool`, `float64`,
`string`, `[]interface{}` or `map[string]interface{}`.  A number keeps its literal text
(Go converts it to a `float64`, or to `nil` when it is out of range); an object keeps its
members in document order, where Go's map keeps the last of several equal keys. -/
inductive JSON where
  | null
  | bool (b : Bool)
  | num (lit : GoString)
  | str (s : GoString)
  | arr (elems : List JSON)
  | obj (members : List (GoString × JSON))

/-- The function `isSpace` of the scanner. -/
def isSpace (c : Nat) : Bool := c = 0x20 || c = 0x09 || c = 0x0D || c = 0x0A

/-- The rest of the input after leading white space. -/
def skipSpace : GoString → GoString
  | [] => []
  | c :: cs => if isSpace c then skipSpace cs else c :: cs

/-- The four hex digits of a `\u` escape, as `getu4` reads them. -/
def readHex4 : GoString → Option (Nat × GoString)
  | h1 :: h2 :: h3 :: h4 :: rest =>
    if ishex h1 && ishex h2 && ishex h3 && ishex h4 then
      some (unhex h1 * 4096 + unhex h2 * 256 + unhex h3 * 16 + unhex h4, rest)
    else none
  | _ => none

/-- The function `getu4` at the position of a possible second `\u` escape: its value, or
`none` where Go returns `-1`. -/
def getu4 : GoString → Option (Nat × GoString)
  | c :: u :: rest => if c = 0x5C ∧ u = 0x75 then readHex4 rest else none
  | _ => none

/-- The bytes written for a `\uXXXX` escape of value `rr`, and the input after the escape
(after both escapes for a surrogate pair); `s` is the input after the first escape. -/
def unquoteU (rr : Nat) (s : GoString) : GoString × GoString :=
  if 0xD800 ≤ rr ∧ rr < 0xE000 then
    match getu4 s with
    | some (rr1, rest) =>
      if rr < 0xDC00 ∧ 0xDC00 ≤ rr1 ∧ rr1 < 0xE000 then
        (EncodeRune ((rr - 0xD800) * 1024 + (rr1 - 0xDC00) + 0x10000), rest)
      else (EncodeRune RuneError, s)
    | none => (EncodeRune RuneError, s)
  else (EncodeRune rr, s)

/-- The value of a one-letter escape, as the scanner admits it and `unquote` decodes it. -/
def unquoteSimple (e : Nat) : Option Nat :=
  if e = 0x22 ∨ e = 0x5C ∨ e = 0x2F then some e
  else if e = 0x62 then some 0x08
  else if e = 0x66 then some 0x0C
  else if e = 0x6E then some 0x0A
  else if e = 0x72 then some 0x0D
  else if e = 0x74 then some 0x09
  else none

/-- A string literal after its opening quote, as the scanner delimits it and `unquote`
decodes it: the decoded bytes and the input after the closing quote.  Escapes are resolved,
a control character or an unknown escape is an error, and a byte sequence that is not valid
UTF-8 is replaced by U+FFFD. -/
def readStringAux : Nat → GoString → Option (GoString × GoString)
  | 0, _ => none
  | _ + 1, [] => none
  | fuel + 1, c :: cs =>
    if c = 0x22 then some ([], cs)
    else if c = 0x5C then
      match cs with
      | [] => none
      | e :: cs1 =>
        if e = 0x75 then
          match readHex4 cs1 with
          | none => none
          | some (rr, cs2) =>
            (readStringAux fuel (unquoteU rr cs2).2).map fun r => ((unquoteU rr cs2).1 ++ r.1, r.2)
        else
          match unquoteSimple e with
          | none => none
          | some b => (readStringAux fuel cs1).map fun r => (b :: r.1, r.2)
    else if c < 0x20 then none
    else if c < 0x80 then (readStringAux fuel cs).map fun r => (c :: r.1, r.2)
    else
      (readStringAux fuel (cs.drop ((DecodeRune (c :: cs)).2 - 1))).map fun r =>
        (EncodeRune (DecodeRune (c :: cs)).1 ++ r.1, r.2)

/-- A string literal after its opening quote; every round of the loop consumes a byte, so
the length of the input is fuel enough (`readString_fuel`). -/
def readString (s : GoString) : Option (GoString × GoString) := readStringAux s.length s

/-- The longest prefix of decimal digits, and the rest. -/
def takeDigits : GoString → GoString × GoString
  | [] => ([], [])
  | c :: cs =>
    if 0x30 ≤ c ∧ c ≤ 0x39 then ((takeDigits cs).1.cons c, (takeDigits cs).2) else ([], c :: cs)

/-- The exponent of a number literal, if there is one: `e` or `E`, an optional sign and at
least one digit. -/
def readExponent (s : GoString) : Option (GoString × GoString) :=
  match s with
  | e :: t =>
    if e = 0x65 ∨ e = 0x45 then
      match t with
      | sg :: t1 =>
        if sg = 0x2B ∨ sg = 0x2D then
          if (takeDigits t1).1 = [] then none
          else some (e :: sg :: (takeDigits t1).1, (takeDigits t1).2)
        else if (takeDigits t).1 = [] then none
        else some (e :: (takeDigits t).1, (takeDigits t).2)
      | [] => none
    else some ([], s)
  | [] => some ([], s)

/-- The fraction of a number literal, if there is one: `.` and at least one digit. -/
def readFraction (s : GoString) : Option (GoString × GoString) :=
  match s with
  | d :: t =>
    if d = 0x2E then
      if (takeDigits t).1 = [] then none else some (d :: (takeDigits t).1, (takeDigits t).2)
    else some ([], s)
  | [] => some ([], s)

/-- The integer part of a number literal after the optional sign: `0`, or a digit `1`-`9`
followed by digits. -/
def readInt (s : GoString) : Option (GoString × GoString) :=
  match s with
  | c :: t =>
    if c = 0x30 then some ([c], t)
    else if 0x31 ≤ c ∧ c ≤ 0x39 then some (c :: (takeDigits t).1, (takeDigits t).2)
    else none
  | [] => none

/-- The optional minus sign of a number literal. -/
def readSign (s : GoString) : GoString × GoString :=
  match s with
  | c :: t => if c = 0x2D then ([c], t) else ([], s)
  | [] => ([], s)

/-- A number literal as the scanner accepts it: its text and the input after it. -/
def readNumber (s : GoString) : Option (GoString × GoString) :=
  match readInt (readSign s).2 with
  | none => none
  | some (i, r1) =>
    match readFraction r1 with
    | none => none
    | some (f, r2) =>
      match readExponent r2 with
      | none => none
      | some (e, r3) => some ((readSign s).1 ++ i ++ f ++ e, r3)

/-- The constant `maxNestingDepth` of the scanner. -/
def maxNestingDepth : Nat := 10000

mutual
/-- One JSON value at the head of the input, white space before it skipped: the decoded value
and the input after it.  `depth` counts the arrays and objects that are open. -/
def parseValue : Nat → Nat → GoString → Option (JSON × GoString)
  | 0, _, _ => none
  | fuel + 1, depth, s =>
    match skipSpace s with
    | [] => none
    | c :: cs =>
      if c = 0x7B then
        if maxNestingDepth < depth + 1 then none
        else
          match skipSpace cs with
          | [] => none
          | c1 :: cs1 =>
            if c1 = 0x7D then some (JSON.obj [], cs1)
            else (parseMembers fuel (depth + 1) (c1 :: cs1)).map fun r => (JSON.obj r.1, r.2)
      else if c = 0x5B then
        if maxNestingDepth < depth + 1 then none
        else
          match skipSpace cs with
          | [] => none
          | c1 :: cs1 =>
            if c1 = 0x5D then some (JSON.arr [], cs1)
            else (parseElems fuel (depth + 1) (c1 :: cs1)).map fun r => (JSON.arr r.1, r.2)
      else if c = 0x22 then (readString cs).map fun r => (JSON.str r.1, r.2)
      else if c = 0x74 then
        match cs with
        | 0x72 :: 0x75 :: 0x65 :: r => some (JSON.bool true, r)
        | _ => none
      else if c = 0x66 then
        match cs with
        | 0x61 :: 0x6C :: 0x73 :: 0x65 :: r => some (JSON.bool false, r)
        | _ => none
      else if c = 0x6E then
        match cs with
        | 0x75 :: 0x6C :: 0x6C :: r => some (JSON.null, r)
        | _ => none
      else (readNumber (c :: cs)).map fun r => (JSON.num r.1, r.2)
/-- The elements of a non-empty array up to and including its `]`. -/
def parseElems : Nat → Nat → GoString → Option (List JSON × GoString)
  | 0, _, _ => none
  | fuel + 1, depth, s =>
    match parseValue fuel depth s with
    | none => none
    | some (v, r) =>
      match skipSpace r with
      | [] => none
      | c :: r1 =>
        if c = 0x2C then (parseElems fuel depth r1).map fun t => (v :: t.1, t.2)
        else if c = 0x5D then some ([v], r1)
        else none
/-- The members of a non-empty object up to and including its `}`. -/
def parseMembers : Nat → Nat → GoString → Option (List (GoString × JSON) × GoString)
  | 0, _, _ => none
  | fuel + 1, depth, s =>
    match skipSpace s with
    | [] => none
    | q :: r =>
      if q = 0x22 then
        match readString r with
        | none => none
        | some (key, r1) =>
          match skipSpace r1 with
          | [] => none
          | c :: r2 =>
            if c = 0x3A then
              match parseValue fuel depth r2 with
              | none => none
              | some (v, r3) =>
                match skipSpace r3 with
                | [] => none
                | c1 :: r4 =>
                  if c1 = 0x2C then
                    (parseMembers fuel depth r4).map fun t => ((key, v) :: t.1, t.2)
                  else if c1 = 0x7D then some ([(key, v)], r4)
                  else none
            else none
      else none
end

/-- The function `json.Unmarshal` into an `interface{}`: the value that `data` denotes, or
`none` when `data` is not valid JSON (the `SyntaxError` of `checkValid`, raised before
anything is stored).  Every call of the parser consumes a byte at least every second time,
so twice the length of the input is fuel enough (`Unmarshal_fuel`). -/
def Unmarshal (data : GoString) : Option JSON :=
  match parseValue (2 * data.length + 2) 0 data with
  | none => none
  | some (v, rest) => if skipSpace rest = [] then some v else none

/-- The element `m[key]` of a `map[string]interface{}` decoded from the given members: the
value of the last member with that key, `none` (the nil interface) when there is none. -/
def mapIndex (members : List (GoString × JSON)) (key : GoString) : Option JSON :=
  (members.reverse.find? fun kv => kv.1 = key).map fun kv => kv.2

/-- The map `result` after `json.Unmarshal(body, &result)` on a nil
`map[string]interface{}`, the error discarded: the members of the object that `body`
denotes; `none` is the nil map, left untouched when `body` is not valid JSON or is not an
object. -/
def unmarshalMap (body : GoString) : Option (List (GoString × JSON)) :=
  match Unmarshal body with
  | some (JSON.obj members) => some members
  | _ => none

/-! ## The process and its environment -/

/-- The fields of an `http.Cookie` that the program reads. -/
structure Cookie where
  Name : GoString
  Value : GoString

/-- A value of type `http.Header`.  `net/http` brings a key to its canonical spelling in
`Set` and in `Get` alike; the four keys of the program stay distinct under it, so the
entries are kept under the spelling of the source. -/
abbrev Header := List (String × GoString)

/-- The method `Header.Set`: the value of `key` is replaced. -/
def Header.Set (h : Header) (key : String) (value : GoString) : Header :=
  (h.filter fun kv => kv.1 ≠ key) ++ [(key, value)]

/-- The method `Header.Get`: the value of `key`, the empty string when there is none. -/
def Header.Get (h : Header) (key : String) : GoString :=
  ((h.find? fun kv => kv.1 = key).map fun kv => kv.2).getD []

/-- The fields of an `http.Request` that the program sets. -/
structure Request where
  Method : String
  URL : String
  Header : Header
  Body : GoString

/-- The function `http.NewRequest`, which cannot fail on the constant methods and URLs of
the program: a request with no header yet.  A `nil` body is the empty body. -/
def NewRequest (method url : String) (body : GoString) : Request :=
  { Method := method, URL := url, Header := [], Body := body }

/-- The statement `request.Header.Set(key, value)`. -/
def Request.setHeader (r : Request) (key : String) (value : GoString) : Request :=
  { r with Header := r.Header.Set key value }

/-- The fields of an `http.Response` that the program reads: the status code, and what
`ioutil.ReadAll(response.Body)` returns, the body or an error. -/
structure Response where
  StatusCode : Int
  Body : Except String GoString

/-- Everything outside the process during one run.  `LookupEnv` is the environment.  `Do`
is the network: what `httpClient.Do` returns for a request, given the requests made before
it (an error of the transport, or the response).  `Cookies` is what the jar returns for the
base URL after the given requests. -/
structure World where
  LookupEnv : String → Option GoString
  Do : List Request → Request → Except String Response
  Cookies : List Request → List Cookie

/-- What a run leaves behind, in order: a line of the log, the report of a run-time panic,
a call of `httpClient.Do`. -/
inductive Event where
  | log (msg : String)
  | panic
  | send (req : Request)

/-- The requests made so far. -/
def sent : List Event → List Request
  | [] => []
  | Event.send r :: t => r :: sent t
  | _ :: t => sent t

/-- A step of the process either returns a value or ends the process with an exit code; in
both cases it extends the trace. -/
inductive Result (α : Type) where
  | ok (a : α) (t : List Event)
  | exit (code : Nat) (t : List Event)

/-- The trace at the end of a step. -/
def Result.trace {α : Type} : Result α → List Event
  | Result.ok _ t => t
  | Result.exit _ t => t

/-- A computation of the process, from the trace so far. -/
def Proc (α : Type) : Type := List Event → Result α

instance : Monad Proc where
  pure a := fun t => Result.ok a t
  bind m f := fun t =>
    match m t with
    | Result.ok a t1 => f a t1
    | Result.exit c t1 => Result.exit c t1

/-- The function `log.Println`. -/
def Println (msg : String) : Proc Unit := fun t => Result.ok () (t ++ [Event.log msg])

/-- The function `log.Fatal`: the message is logged and the process exits with status 1. -/
def Fatal {α : Type} (msg : String) : Proc α := fun t => Result.exit 1 (t ++ [Event.log msg])

/-- A run-time panic that nothing recovers: the process exits with status 2. -/
def goPanic {α : Type} : Proc α := fun t => Result.exit 2 (t ++ [Event.panic])

/-- The call `httpClient.Do(request)`. -/
def clientDo (w : World) (request : Request) : Proc (Except String Response) :=
  fun t => Result.ok (w.Do (sent t) request) (t ++ [Event.send request])

/-- The call `httpClient.Jar.Cookies(url)` for the base URL. -/
def jarCookies (w : World) : Proc (List Cookie) := fun t => Result.ok (w.Cookies (sent t)) t

/-! ## The program -/

/-- The constant `baseURL`. -/
def baseURL : String := "http://192.168.0.1/"

/-- The function `findCookie`: the value of the first cookie named `name`, the empty string
when there is none. -/
def findCookie (cookies : List Cookie) (name : GoString) : GoString :=
  match cookies with
  | [] => []
  | cookie :: rest => if cookie.Name = name then cookie.Value else findCookie rest name

/-- The message of `appendCsrfpToken` when it finds no token. -/
def noTokenMsg : String :=
  "Failed to locate csrfp_token from client cookies. Ensure valid credentials were used."

/-- The function `appendCsrfpToken`; it returns the request with its new header. -/
def appendCsrfpToken (w : World) (request : Request) : Proc Request := do
  let token := findCookie (← jarCookies w) (bytes "csrfp_token")
  if token = [] then
    Fatal noTokenMsg
  pure (request.setHeader "csrfp_token" token)

/-- The request that `refreshAuth` builds (lines 62-73): the credentials as a form. -/
def authRequest (user pass : GoString) : Request :=
  let authFormData : Values := [(bytes "username", [user]), (bytes "password", [pass])]
  let authRequest := NewRequest "POST" (baseURL ++ "check.php") authFormData.Encode
  let authRequest := authRequest.setHeader "User-Agent" (bytes "MoCA_Probe/0.1")
  authRequest.setHeader "Content-Type" (bytes "application/x-www-form-urlencoded")

/-- The function `refreshAuth`. -/
def refreshAuth (w : World) (user pass : GoString) : Proc Int := do
  match (← clientDo w (authRequest user pass)) with
  | Except.error err => Fatal err
  | Except.ok authResponse => pure authResponse.StatusCode

/-- The comparison `v == "true"` of an `interface{}` with a string: true exactly when `v`
holds a string equal to it. -/
def JSON.eqString : JSON → GoString → Bool
  | JSON.str s, t => s = t
  | _, _ => false

/-- The value `result["mainStatus"]` after the body is decoded: `none` is the nil
interface. -/
def mainStatusOf (body : GoString) : Option JSON :=
  (unmarshalMap body).bind fun result => mapIndex result (bytes "mainStatus")

/-- Lines 106-114 of `isMoCAEnabled`: the response body is decoded and `mainStatus`
inspected.  The type assertion `.([]interface{})` panics on anything but a list, also on the
nil interface of a missing key or a nil map; a decoded list is never nil. -/
def decodeStatus (body : GoString) : Proc Bool :=
  match mainStatusOf body with
  | some (JSON.arr keys) => do
    if keys.length < 3 then
      Fatal "Received invalid response from router."
    match keys[2]? with
    | some k2 => pure (k2.eqString (bytes "true"))
    | none => goPanic
  | _ => goPanic

/-- The request that `isMoCAEnabled` builds (lines 85-92), before the token is added. -/
def statusRequest : Request :=
  let request := NewRequest "POST" (baseURL ++ "actionHandler/ajaxSet_userbar.php") []
  let request := request.setHeader "User-Agent" (bytes "MoCA_Probe/0.1")
  let request := request.setHeader "Content-Type" (bytes "application/x-www-form-urlencoded")
  request.setHeader "Accept" (bytes "application/json, text/javascript, */*; q=0.01")

/-- The function `isMoCAEnabled`. -/
def isMoCAEnabled (w : World) : Proc Bool := do
  let request ← appendCsrfpToken w statusRequest
  match (← clientDo w request) with
  | Except.error err => Fatal err
  | Except.ok response =>
    match response.Body with
    | Except.error err => Fatal err
    | Except.ok body => decodeStatus body

/-- The map `configData` of `enableMoCA` for the user name `user`. -/
def configData (user : GoString) : List (GoString × GoString) :=
  [(bytes "moca_enable", bytes "true"), (bytes "thisUser", user)]

/-- The body that `enableMoCA` posts (lines 119-131): the JSON text of `configData` as the
form field `configInfo`. -/
def enableBody (user : GoString) : GoString :=
  let encodedData := Marshal (configData user)
  let formData : Values := [(bytes "configInfo", [encodedData])]
  formData.Encode

/-- The request that `enableMoCA` builds (lines 119-138), before the token is added. -/
def enableRequest (user : GoString) : Request :=
  let request := NewRequest "POST" (baseURL ++ "actionHandler/ajaxSet_moca_config.php")
    (enableBody user)
  let request := request.setHeader "User-Agent" (bytes "MoCA_Probe/0.1")
  let request := request.setHeader "Content-Type" (bytes "application/x-www-form-urlencoded")
  request.setHeader "Accept" (bytes "*/*")

/-- The function `enableMoCA`. -/
def enableMoCA (w : World) (user : GoString) : Proc Int := do
  let request ← appendCsrfpToken w (enableRequest user)
  match (← clientDo w request) with
  | Except.error err => Fatal err
  | Except.ok response => pure response.StatusCode

/-- The function `main`.  `os.LookupEnv` returns the value and whether it is set;
`cookiejar.New(nil)` returns no error. -/
def main (w : World) : Proc Unit := do
  let user := (w.LookupEnv "GATEWAY_USERNAME").getD []
  let userPresent := (w.LookupEnv "GATEWAY_USERNAME").isSome
  let pass := (w.LookupEnv "GATEWAY_PASSWORD").getD []
  let passPresent := (w.LookupEnv "GATEWAY_PASSWORD").isSome
  if !userPresent then
    Fatal "Missing environment variable: GATEWAY_USERNAME"
  if !passPresent then
    Fatal "Missing environment variable: GATEWAY_PASSWORD"
  Println "Acquiring authorization tokens..."
  if (← refreshAuth w user pass) ≠ 200 then
    Fatal "Failed to acquire authorization tokens."
  Println "Querying MoCA status..."
  let mocaEnabled ← isMoCAEnabled w
  if !mocaEnabled then
    Println "Attempting to enable MoCA..."
  else
    Fatal "MoCA is already enabled."
  let enableResponseCode ← enableMoCA w user
  if enableResponseCode = 200 then
    Println "Successfully enabled MoCA."
  else
    Println "Failed to enable MoCA."

/-- A whole run of the program: its exit code (0 when `main` returns) and its trace. -/
def run (w : World) : Nat × List Event :=
  match main w [] with
  | Result.ok _ t => (0, t)
  | Result.exit code t => (code, t)

/-! ## Sample worlds -/

/-- A network that answers every request with status 200 and an empty body. -/
def okNet : List Request → Request → Except String Response :=
  fun _ _ => Except.ok { StatusCode := 200, Body := Except.ok [] }

/-- A world whose jar holds a session cookie but no `csrfp_token`. -/
def worldNoToken : World where
  LookupEnv := fun _ => none
  Do := okNet
  Cookies := fun _ => [⟨bytes "PHPSESSID", bytes "s1"⟩]

/-- A world whose jar holds a `csrfp_token` cookie with the empty value. -/
def worldEmptyToken : World where
  LookupEnv := fun _ => none
  Do := okNet
  Cookies := fun _ => [⟨bytes "csrfp_token", []⟩]

/-- A world whose jar holds two `csrfp_token` cookies after a session cookie. -/
def worldTwoTokens : World where
  LookupEnv := fun _ => none
  Do := okNet
  Cookies := fun _ =>
    [⟨bytes "PHPSESSID", bytes "s1"⟩, ⟨bytes "csrfp_token", bytes "first"⟩,
     ⟨bytes "csrfp_token", bytes "second"⟩]

/-- The token that `appendCsrfpToken` finds in the jar at trace `t`. -/
def tokenAt (w : World) (t : List Event) : GoString :=
  findCookie (w.Cookies (sent t)) (bytes "csrfp_token")

/-- The trace after `isMoCAEnabled`, called at trace `t`, has sent its request. -/
def statusTrace (w : World) (t : List Event) : List Event :=
  t ++ [Event.send (statusRequest.setHeader "csrfp_token" (tokenAt w t))]

/-- The status request of `isMoCAEnabled`, called at trace `t`, is answered with `body`: the
jar holds a token, `httpClient.Do` returns a response and `ioutil.ReadAll` returns `body`. -/
def statusAnswered (w : World) (t : List Event) (body : GoString) : Prop :=
  tokenAt w t ≠ [] ∧
  ∃ response, w.Do (sent t) (statusRequest.setHeader "csrfp_token" (tokenAt w t))
      = Except.ok response ∧ response.Body = Except.ok body

/-- The trace of `main` up to the call of `isMoCAEnabled`. -/
def loginTrace (user pass : GoString) : List Event :=
  [Event.log "Acquiring authorization tokens...", Event.send (authRequest user pass),
   Event.log "Querying MoCA status..."]

/-- An environment with both credentials. -/
def envBoth : String → Option GoString := fun name =>
  if name = "GATEWAY_USERNAME" then some (bytes "alice")
  else if name = "GATEWAY_PASSWORD" then some [] else none

/-- An environment with the user name only. -/
def envUserOnly : String → Option GoString := fun name =>
  if name = "GATEWAY_USERNAME" then some (bytes "alice") else none

/-- A jar that is empty before the login and holds a session cookie and a token after. -/
def jarAfterLogin : List Request → List Cookie := fun h =>
  if h.length = 0 then [] else [⟨bytes "PHPSESSID", bytes "s1"⟩, ⟨bytes "csrfp_token", bytes "tok"⟩]

/-- A router that answers the first request with `loginCode`, the second with status 200 and
`statusBody`, and every later one with `enableCode`. -/
def routerNet (loginCode : Int) (statusBody : GoString) (enableCode : Int) :
    List Request → Request → Except String Response := fun h _ =>
  match h.length with
  | 0 => Except.ok { StatusCode := loginCode, Body := Except.ok [] }
  | 1 => Except.ok { StatusCode := 200, Body := Except.ok statusBody }
  | _ => Except.ok { StatusCode := enableCode, Body := Except.ok [] }

/-- A world with both credentials, the jar `jarAfterLogin` and the router `routerNet`. -/
def worldRouter (loginCode : Int) (statusBody : GoString) (enableCode : Int) : World where
  LookupEnv := envBoth
  Do := routerNet loginCode statusBody enableCode
  Cookies := jarAfterLogin

/-- A world without `GATEWAY_PASSWORD`. -/
def worldNoPassword : World where
  LookupEnv := envUserOnly
  Do := okNet
  Cookies := jarAfterLogin

/-- The status body `{"mainStatus":["x","y","true"]}`. -/
def bodyEnabled : GoString := bytes "\x7b\"mainStatus\":[\"x\",\"y\",\"true\"]\x7d"

/-- The status body `{"mainStatus":["x","y","false"]}`. -/
def bodyDisabled : GoString := bytes "\x7b\"mainStatus\":[\"x\",\"y\",\"false\"]\x7d"

/-- The status body `{"status":"ok"}`, an object without the key `mainStatus`. -/
def bodyNoKey : GoString := bytes "\x7b\"status\":\"ok\"\x7d"

/-- The status body `{"mainStatus":["x","y","true"]} x`: an object, then garbage. -/
def bodyTrailing : GoString := bytes "\x7b\"mainStatus\":[\"x\",\"y\",\"true\"]\x7d x"

/-- A user name with a quote, a backslash, `<`, `&`, `=`, a space, a line feed, `é` and
U+2028. -/
def userOdd : GoString :=
  [0x61, 0x22, 0x5C, 0x3C, 0x26, 0x3D, 0x20, 0x0A, 0xC3, 0xA9, 0xE2, 0x80, 0xA8]

/-! ## The process monad -/

@[simp] theorem pure_apply {α : Type} (a : α) (t : List Event) :
    (pure a : Proc α) t = Result.ok a t := rfl

@[simp] theorem bind_apply {α β : Type} (m : Proc α) (f : α → Proc β) (t : List Event) :
    (m >>= f) t = match m t with
      | Result.ok a t1 => f a t1
      | Result.exit c t1 => Result.exit c t1 := rfl

@[simp] theorem sent_append_log (t : List Event) (msg : String) :
    sent (t ++ [Event.log msg]) = sent t := by
  induction t with
  | nil => rfl
  | cons e t ih => cases e <;> simp [sent, ih]

@[simp] theorem sent_append_send (t : List Event) (r : Request) :
    sent (t ++ [Event.send r]) = sent t ++ [r] := by
  induction t with
  | nil => rfl
  | cons e t ih => cases e <;> simp [sent, ih]

@[simp] theorem Println_apply (msg : String) (t : List Event) :
    Println msg t = Result.ok () (t ++ [Event.log msg]) := rfl

@[simp] theorem Fatal_apply {α : Type} (msg : String) (t : List Event) :
    (Fatal msg : Proc α) t = Result.exit 1 (t ++ [Event.log msg]) := rfl

theorem findCookie_absent (cookies : List Cookie) (name : GoString)
    (h : ∀ c ∈ cookies, c.Name ≠ name) : findCookie cookies name = [] := by
  induction cookies with
  | nil => rfl
  | cons c cs ih =>
    have hc : c.Name ≠ name := h c (List.mem_cons_self _ _)
    simp [findCookie, hc]
    exact ih fun d hd => h d (List.mem_cons_of_mem _ hd)

theorem findCookie_first (pre post : List Cookie) (c : Cookie) (name : GoString)
    (hpre : ∀ p ∈ pre, p.Name ≠ name) (hc : c.Name = name) :
    findCookie (pre ++ c :: post) name = c.Value := by
  induction pre with
  | nil => simp [findCookie, hc]
  | cons p ps ih =>
    have hp : p.Name ≠ name := hpre p (List.mem_cons_self _ _)
    simp [findCookie, hp]
    exact ih fun d hd => hpre d (List.mem_cons_of_mem _ hd)

theorem appendCsrfpToken_eq (w : World) (request : Request) (t : List Event) :
    appendCsrfpToken w request t =
      if findCookie (w.Cookies (sent t)) (bytes "csrfp_token") = [] then
        Result.exit 1 (t ++ [Event.log noTokenMsg])
      else
        Result.ok (request.setHeader "csrfp_token"
          (findCookie (w.Cookies (sent t)) (bytes "csrfp_token"))) t := by
  simp only [appendCsrfpToken, bind_apply, jarCookies]
  split <;> simp [Fatal]

theorem isMoCAEnabled_noToken (w : World) (t : List Event)
    (h : findCookie (w.Cookies (sent t)) (bytes "csrfp_token") = []) :
    isMoCAEnabled w t = Result.exit 1 (t ++ [Event.log noTokenMsg]) := by
  simp [isMoCAEnabled, appendCsrfpToken_eq, h]

theorem enableMoCA_noToken (w : World) (user : GoString) (t : List Event)
    (h : findCookie (w.Cookies (sent t)) (bytes "csrfp_token") = []) :
    enableMoCA w user t = Result.exit 1 (t ++ [Event.log noTokenMsg]) := by
  simp [enableMoCA, appendCsrfpToken_eq, h]

theorem refreshAuth_eq (w : World) (user pass : GoString) (t : List Event) :
    refreshAuth w user pass t =
      match w.Do (sent t) (authRequest user pass) with
      | Except.error err =>
        Result.exit 1 (t ++ [Event.send (authRequest user pass), Event.log err])
      | Except.ok authResponse =>
        Result.ok authResponse.StatusCode (t ++ [Event.send (authRequest user pass)]) := by
  simp only [refreshAuth, bind_apply, clientDo]
  cases w.Do (sent t) (authRequest user pass) <;> simp

theorem main_eq (w : World) :
    main w [] =
      match w.LookupEnv "GATEWAY_USERNAME", w.LookupEnv "GATEWAY_PASSWORD" with
      | none, _ => Result.exit 1 [Event.log "Missing environment variable: GATEWAY_USERNAME"]
      | some _, none =>
        Result.exit 1 [Event.log "Missing environment variable: GATEWAY_PASSWORD"]
      | some user, some pass =>
        match w.Do [] (authRequest user pass) with
        | Except.error err =>
          Result.exit 1 [Event.log "Acquiring authorization tokens...",
            Event.send (authRequest user pass), Event.log err]
        | Except.ok resp =>
          if resp.StatusCode ≠ 200 then
            Result.exit 1 [Event.log "Acquiring authorization tokens...",
              Event.send (authRequest user pass),
              Event.log "Failed to acquire authorization tokens."]
          else
            match isMoCAEnabled w [Event.log "Acquiring authorization tokens...",
                Event.send (authRequest user pass), Event.log "Querying MoCA status..."] with
            | Result.exit c t => Result.exit c t
            | Result.ok true t => Result.exit 1 (t ++ [Event.log "MoCA is already enabled."])
            | Result.ok false t =>
              match enableMoCA w user (t ++ [Event.log "Attempting to enable MoCA..."]) with
              | Result.exit c t1 => Result.exit c t1
              | Result.ok code t1 =>
                Result.ok () (t1 ++ [Event.log (if code = 200 then "Successfully enabled MoCA."
                  else "Failed to enable MoCA.")]) := by
  unfold main
  cases hu : w.LookupEnv "GATEWAY_USERNAME" with
  | none => simp
  | some user =>
    cases hp : w.LookupEnv "GATEWAY_PASSWORD" with
    | none => simp
    | some pass =>
      simp [refreshAuth_eq, sent]
      cases hd : w.Do [] (authRequest user pass) with
      | error e => simp
      | ok resp =>
        simp
        by_cases hc : resp.StatusCode = 200
        · simp [hc]
          cases hs : isMoCAEnabled w [Event.log "Acquiring authorization tokens...",
              Event.send (authRequest user pass), Event.log "Querying MoCA status..."] with
          | exit c t => simp
          | ok b t =>
            cases b
            · simp
              cases he : enableMoCA w user (t ++ [Event.log "Attempting to enable MoCA..."]) with
              | exit c t1 => simp
              | ok code t1 =>
                simp
                split <;> simp_all
            · simp
        · simp [hc]

@[simp] theorem goPanic_apply {α : Type} (t : List Event) :
    (goPanic : Proc α) t = Result.exit 2 (t ++ [Event.panic]) := rfl

theorem decodeStatus_list (body : GoString) (keys : List JSON) (t : List Event)
    (h : mainStatusOf body = some (JSON.arr keys)) :
    decodeStatus body t =
      if keys.length < 3 then
        Result.exit 1 (t ++ [Event.log "Received invalid response from router."])
      else
        match keys[2]? with
        | some k2 => Result.ok (k2.eqString (bytes "true")) t
        | none => Result.exit 2 (t ++ [Event.panic]) := by
  simp only [decodeStatus, h, bind_apply]
  by_cases hl : keys.length < 3
  · simp [hl]
  · simp only [hl, if_false, pure_apply]
    cases keys[2]? <;> simp

theorem decodeStatus_not_list (body : GoString) (t : List Event)
    (h : ∀ keys, mainStatusOf body ≠ some (JSON.arr keys)) :
    decodeStatus body t = Result.exit 2 (t ++ [Event.panic]) := by
  unfold decodeStatus
  cases hm : mainStatusOf body with
  | none => simp
  | some v =>
    cases v with
    | arr keys => exact absurd hm (h keys)
    | _ => simp

theorem decodeStatus_ok (body : GoString) (t t1 : List Event) (b : Bool)
    (h : decodeStatus body t = Result.ok b t1) : t1 = t := by
  by_cases hm : ∃ keys, mainStatusOf body = some (JSON.arr keys)
  · obtain ⟨keys, hk⟩ := hm
    rw [decodeStatus_list body keys t hk] at h
    by_cases hl : keys.length < 3
    · simp [hl] at h
    · simp only [hl, if_false] at h
      cases hk2 : keys[2]? with
      | none => simp [hk2] at h
      | some k => simp [hk2] at h; exact h.2.symm
  · rw [decodeStatus_not_list body t (fun keys hk => hm ⟨keys, hk⟩)] at h
    simp at h

theorem isMoCAEnabled_eq (w : World) (t : List Event) :
    isMoCAEnabled w t =
      if findCookie (w.Cookies (sent t)) (bytes "csrfp_token") = [] then
        Result.exit 1 (t ++ [Event.log noTokenMsg])
      else
        match w.Do (sent t) (statusRequest.setHeader "csrfp_token"
            (findCookie (w.Cookies (sent t)) (bytes "csrfp_token"))) with
        | Except.error err =>
          Result.exit 1 (t ++ [Event.send (statusRequest.setHeader "csrfp_token"
            (findCookie (w.Cookies (sent t)) (bytes "csrfp_token"))), Event.log err])
        | Except.ok response =>
          match response.Body with
          | Except.error err =>
            Result.exit 1 (t ++ [Event.send (statusRequest.setHeader "csrfp_token"
              (findCookie (w.Cookies (sent t)) (bytes "csrfp_token"))), Event.log err])
          | Except.ok body =>
            decodeStatus body (t ++ [Event.send (statusRequest.setHeader "csrfp_token"
              (findCookie (w.Cookies (sent t)) (bytes "csrfp_token")))]) := by
  simp only [isMoCAEnabled, bind_apply, appendCsrfpToken_eq, clientDo]
  by_cases htok : findCookie (w.Cookies (sent t)) (bytes "csrfp_token") = []
  · simp [htok]
  · simp only [htok, if_false]
    cases w.Do (sent t) (statusRequest.setHeader "csrfp_token"
            (findCookie (w.Cookies (sent t)) (bytes "csrfp_token"))) with
    | error e => simp
    | ok resp =>
      simp only []
      cases resp.Body <;> simp

theorem enableMoCA_eq (w : World) (user : GoString) (t : List Event) :
    enableMoCA w user t =
      if findCookie (w.Cookies (sent t)) (bytes "csrfp_token") = [] then
        Result.exit 1 (t ++ [Event.log noTokenMsg])
      else
        match w.Do (sent t) ((enableRequest user).setHeader "csrfp_token"
            (findCookie (w.Cookies (sent t)) (bytes "csrfp_token"))) with
        | Except.error err =>
          Result.exit 1 (t ++ [Event.send ((enableRequest user).setHeader "csrfp_token"
            (findCookie (w.Cookies (sent t)) (bytes "csrfp_token"))), Event.log err])
        | Except.ok response =>
          Result.ok response.StatusCode (t ++ [Event.send ((enableRequest user).setHeader
            "csrfp_token" (findCookie (w.Cookies (sent t)) (bytes "csrfp_token")))]) := by
  simp only [enableMoCA, bind_apply, appendCsrfpToken_eq, clientDo]
  by_cases htok : findCookie (w.Cookies (sent t)) (bytes "csrfp_token") = []
  · simp [htok]
  · simp only [htok, if_false]
    cases w.Do (sent t) ((enableRequest user).setHeader "csrfp_token"
            (findCookie (w.Cookies (sent t)) (bytes "csrfp_token"))) <;> simp

/-- When `isMoCAEnabled` returns, it has sent exactly one request, the status request with
the token of the jar, and logged nothing. -/
theorem isMoCAEnabled_ok (w : World) (t t1 : List Event) (b : Bool)
    (h : isMoCAEnabled w t = Result.ok b t1) :
    ∃ token, token ≠ [] ∧ t1 = t ++ [Event.send (statusRequest.setHeader "csrfp_token" token)] := by
  rw [isMoCAEnabled_eq] at h
  split at h
  · simp at h
  · rename_i htok
    refine ⟨_, htok, ?_⟩
    split at h
    · simp at h
    · split at h
      · simp at h
      · exact decodeStatus_ok _ _ _ _ h

/-- When `enableMoCA` returns, it has sent exactly one request, the enable request with the
token of the jar, and logged nothing. -/
theorem enableMoCA_ok (w : World) (user : GoString) (t t1 : List Event) (c : Int)
    (h : enableMoCA w user t = Result.ok c t1) :
    ∃ token, token ≠ [] ∧
      t1 = t ++ [Event.send ((enableRequest user).setHeader "csrfp_token" token)] := by
  rw [enableMoCA_eq] at h
  split at h
  · simp at h
  · rename_i htok
    refine ⟨_, htok, ?_⟩
    split at h
    · simp at h
    · simp at h; exact h.2.symm

theorem run_eq (w : World) :
    run w = match main w [] with
      | Result.ok _ t => (0, t)
      | Result.exit code t => (code, t) := rfl

/-- The run of a world with both credentials whose login is answered with a code other than
200. -/
theorem run_login_refused (w : World) (user pass : GoString) (resp : Response)
    (hu : w.LookupEnv "GATEWAY_USERNAME" = some user)
    (hp : w.LookupEnv "GATEWAY_PASSWORD" = some pass)
    (hlogin : w.Do [] (authRequest user pass) = Except.ok resp)
    (hcode : resp.StatusCode ≠ 200) :
    run w = (1, [Event.log "Acquiring authorization tokens...",
      Event.send (authRequest user pass), Event.log "Failed to acquire authorization tokens."]) := by
  rw [run_eq, main_eq]
  simp [hu, hp, hlogin, hcode]

/-- The run of a world with both credentials whose login is answered with 200: the rest is
decided by `isMoCAEnabled` and `enableMoCA`. -/
theorem run_login_ok (w : World) (user pass : GoString) (resp : Response)
    (hu : w.LookupEnv "GATEWAY_USERNAME" = some user)
    (hp : w.LookupEnv "GATEWAY_PASSWORD" = some pass)
    (hlogin : w.Do [] (authRequest user pass) = Except.ok resp)
    (hcode : resp.StatusCode = 200) :
    run w = match isMoCAEnabled w (loginTrace user pass) with
      | Result.exit c t => (c, t)
      | Result.ok true t => (1, t ++ [Event.log "MoCA is already enabled."])
      | Result.ok false t =>
        match enableMoCA w user (t ++ [Event.log "Attempting to enable MoCA..."]) with
        | Result.exit c t1 => (c, t1)
        | Result.ok code t1 =>
          (0, t1 ++ [Event.log (if code = 200 then "Successfully enabled MoCA."
            else "Failed to enable MoCA.")]) := by
  rw [run_eq, main_eq]
  simp only [hu, hp, hlogin, hcode, loginTrace]
  simp only [ne_eq, not_true_eq_false, if_false]
  cases isMoCAEnabled w [Event.log "Acquiring authorization tokens...",
      Event.send (authRequest user pass), Event.log "Querying MoCA status..."] with
  | exit c t => rfl
  | ok b t =>
    cases b
    · simp only []
      cases enableMoCA w user (t ++ [Event.log "Attempting to enable MoCA..."]) <;> rfl
    · rfl

theorem decodeStatus_extends (body : GoString) (t : List Event) :
    ∃ more, (decodeStatus body t).trace = t ++ more := by
  by_cases hm : ∃ keys, mainStatusOf body = some (JSON.arr keys)
  · obtain ⟨keys, hk⟩ := hm
    rw [decodeStatus_list body keys t hk]
    by_cases hl : keys.length < 3
    · simp only [hl, if_true]; exact ⟨_, rfl⟩
    · simp only [hl, if_false]
      cases keys[2]? with
      | none => exact ⟨_, rfl⟩
      | some k => exact ⟨[], by simp [Result.trace]⟩
  · rw [decodeStatus_not_list body t (fun keys hk => hm ⟨keys, hk⟩)]
    exact ⟨_, rfl⟩

/-- The function `isMoCAEnabled` extends the trace it is given. -/
theorem isMoCAEnabled_extends (w : World) (t : List Event) :
    ∃ more, (isMoCAEnabled w t).trace = t ++ more := by
  rw [isMoCAEnabled_eq]
  by_cases htok : findCookie (w.Cookies (sent t)) (bytes "csrfp_token") = []
  · simp only [htok, if_true]; exact ⟨_, rfl⟩
  · simp only [htok, if_false]
    cases w.Do (sent t) (statusRequest.setHeader "csrfp_token"
        (findCookie (w.Cookies (sent t)) (bytes "csrfp_token"))) with
    | error e => exact ⟨_, rfl⟩
    | ok resp =>
      simp only []
      cases resp.Body with
      | error e => exact ⟨_, rfl⟩
      | ok body =>
        obtain ⟨more, hmore⟩ := decodeStatus_extends body
          (t ++ [Event.send (statusRequest.setHeader "csrfp_token"
            (findCookie (w.Cookies (sent t)) (bytes "csrfp_token")))])
        exact ⟨_, by simp only [hmore, List.append_assoc]; rfl⟩

/-- The function `enableMoCA` extends the trace it is given. -/
theorem enableMoCA_extends (w : World) (user : GoString) (t : List Event) :
    ∃ more, (enableMoCA w user t).trace = t ++ more := by
  rw [enableMoCA_eq]
  by_cases htok : findCookie (w.Cookies (sent t)) (bytes "csrfp_token") = []
  · simp only [htok, if_true]; exact ⟨_, rfl⟩
  · simp only [htok, if_false]
    cases w.Do (sent t) ((enableRequest user).setHeader "csrfp_token"
        (findCookie (w.Cookies (sent t)) (bytes "csrfp_token"))) with
    | error e => exact ⟨_, rfl⟩
    | ok resp => exact ⟨_, rfl⟩

/-- After a login answered with 200 the trace of the run begins with the trace up to the
call of `isMoCAEnabled`. -/
theorem run_login_ok_prefix (w : World) (user pass : GoString) (resp : Response)
    (hu : w.LookupEnv "GATEWAY_USERNAME" = some user)
    (hp : w.LookupEnv "GATEWAY_PASSWORD" = some pass)
    (hlogin : w.Do [] (authRequest user pass) = Except.ok resp)
    (hcode : resp.StatusCode = 200) :
    ∃ more, (run w).2 = loginTrace user pass ++ more := by
  rw [run_login_ok w user pass resp hu hp hlogin hcode]
  obtain ⟨m1, h1⟩ := isMoCAEnabled_extends w (loginTrace user pass)
  cases hs : isMoCAEnabled w (loginTrace user pass) with
  | exit c t =>
    rw [hs] at h1
    exact ⟨m1, h1⟩
  | ok b t =>
    rw [hs] at h1
    simp only [Result.trace] at h1
    cases b
    · simp only []
      obtain ⟨m2, h2⟩ := enableMoCA_extends w user (t ++ [Event.log "Attempting to enable MoCA..."])
      cases he : enableMoCA w user (t ++ [Event.log "Attempting to enable MoCA..."]) with
      | exit c t1 =>
        rw [he] at h2
        simp only [Result.trace] at h2
        exact ⟨_, by simp only [h2, h1, List.append_assoc]; rfl⟩
      | ok code t1 =>
        rw [he] at h2
        simp only [Result.trace] at h2
        exact ⟨_, by simp only [h2, h1, List.append_assoc]; rfl⟩
    · exact ⟨_, by simp only [h1, List.append_assoc]; rfl⟩

theorem sent_append (a b : List Event) : sent (a ++ b) = sent a ++ sent b := by
  induction a with
  | nil => rfl
  | cons e a ih => cases e <;> simp [sent, ih]

@[simp] theorem sent_append_panic (t : List Event) :
    sent (t ++ [Event.panic]) = sent t := by
  simp [sent_append, sent]

theorem decodeStatus_sent (body : GoString) (t : List Event) :
    sent (decodeStatus body t).trace = sent t := by
  by_cases hm : ∃ keys, mainStatusOf body = some (JSON.arr keys)
  · obtain ⟨keys, hk⟩ := hm
    rw [decodeStatus_list body keys t hk]
    by_cases hl : keys.length < 3
    · simp [hl, Result.trace]
    · simp only [hl, if_false]
      cases keys[2]? <;> simp [Result.trace]
  · rw [decodeStatus_not_list body t (fun keys hk => hm ⟨keys, hk⟩)]
    simp [Result.trace]

/-- Whatever `isMoCAEnabled` does, it sends nothing but the status request. -/
theorem isMoCAEnabled_sent (w : World) (t : List Event) :
    sent (isMoCAEnabled w t).trace = sent t ∨
    sent (isMoCAEnabled w t).trace =
      sent t ++ [statusRequest.setHeader "csrfp_token" (tokenAt w t)] := by
  rw [isMoCAEnabled_eq]
  unfold tokenAt
  by_cases htok : findCookie (w.Cookies (sent t)) (bytes "csrfp_token") = []
  · left; simp [htok, Result.trace]
  · right
    simp only [htok, if_false]
    cases w.Do (sent t) (statusRequest.setHeader "csrfp_token"
        (findCookie (w.Cookies (sent t)) (bytes "csrfp_token"))) with
    | error e =>
      simp [Result.trace, sent_append, sent]
    | ok resp =>
      simp only []
      cases resp.Body with
      | error e =>
        simp [Result.trace, sent_append, sent]
      | ok body => simp [decodeStatus_sent]

/-- The run of a world in which `isMoCAEnabled` does not return false sends no request to
the URL of the enable request. -/
theorem no_enable_unless_false (w : World) (r : Request)
    (hr : r ∈ sent (run w).2)
    (hurl : r.URL = "http://192.168.0.1/actionHandler/ajaxSet_moca_config.php") :
    ∃ user pass t, w.LookupEnv "GATEWAY_USERNAME" = some user ∧
      w.LookupEnv "GATEWAY_PASSWORD" = some pass ∧
      isMoCAEnabled w (loginTrace user pass) = Result.ok false t := by
  have hauth : ∀ user pass, (authRequest user pass).URL
      ≠ "http://192.168.0.1/actionHandler/ajaxSet_moca_config.php" := fun user pass => by
    have h : (authRequest user pass).URL = "http://192.168.0.1/check.php" := rfl
    rw [h]; decide
  have hstat : ∀ token, (statusRequest.setHeader "csrfp_token" token).URL
      ≠ "http://192.168.0.1/actionHandler/ajaxSet_moca_config.php" := fun token => by
    have h : (statusRequest.setHeader "csrfp_token" token).URL
        = "http://192.168.0.1/actionHandler/ajaxSet_userbar.php" := rfl
    rw [h]; decide
  cases hu : w.LookupEnv "GATEWAY_USERNAME" with
  | none =>
    rw [run_eq, main_eq] at hr
    simp [hu, sent] at hr
  | some user =>
    cases hp : w.LookupEnv "GATEWAY_PASSWORD" with
    | none =>
      rw [run_eq, main_eq] at hr
      simp [hu, hp, sent] at hr
    | some pass =>
      cases hlogin : w.Do [] (authRequest user pass) with
      | error e =>
        rw [run_eq, main_eq] at hr
        simp [hu, hp, hlogin, sent] at hr
        rw [hr] at hurl
        exact absurd hurl (hauth user pass)
      | ok resp =>
        by_cases hcode : resp.StatusCode = 200
        · rw [run_login_ok w user pass resp hu hp hlogin hcode] at hr
          have hs := isMoCAEnabled_sent w (loginTrace user pass)
          have hl : sent (loginTrace user pass) = [authRequest user pass] := rfl
          rw [hl] at hs
          cases hst : isMoCAEnabled w (loginTrace user pass) with
          | exit c t =>
            rw [hst] at hr hs
            simp only [Result.trace] at hr hs
            rcases hs with hs | hs <;> rw [hs] at hr <;> simp at hr
            · rw [hr] at hurl; exact absurd hurl (hauth user pass)
            · rcases hr with hr | hr <;> rw [hr] at hurl
              · exact absurd hurl (hauth user pass)
              · exact absurd hurl (hstat _)
          | ok b t =>
            cases b
            · exact ⟨user, pass, t, rfl, rfl, hst⟩
            · rw [hst] at hr hs
              simp only [Result.trace, sent_append_log] at hr hs
              rcases hs with hs | hs <;> rw [hs] at hr <;> simp at hr
              · rw [hr] at hurl; exact absurd hurl (hauth user pass)
              · rcases hr with hr | hr <;> rw [hr] at hurl
                · exact absurd hurl (hauth user pass)
                · exact absurd hurl (hstat _)
        · rw [run_login_refused w user pass resp hu hp hlogin hcode] at hr
          simp [sent] at hr
          rw [hr] at hurl
          exact absurd hurl (hauth user pass)

/-! ## `net/url`: escaping and its inverse -/

theorem upperhex_spec (n : Nat) (h : n < 16) :
    ishex (upperhex n) = true ∧ unhex (upperhex n) = n := by
  revert n; decide

theorem QueryUnescape_cons_plain (c : Nat) (rest : GoString) (h1 : c ≠ 0x25) (h2 : c ≠ 0x2B) :
    QueryUnescape (c :: rest) = (QueryUnescape rest).map fun t => c :: t := by
  rw [QueryUnescape.eq_def]
  simp [h1, h2]

theorem shouldEscape_false (c : Nat) (h : shouldEscape c = false) :
    c ≠ 0x25 ∧ c ≠ 0x2B ∧ c ≠ 0x26 ∧ c ≠ 0x3D ∧ c ≠ 0x3B := by
  simp [shouldEscape] at h
  omega

/-- Un-escaping undoes escaping, on every byte string. -/
theorem QueryUnescape_QueryEscape (s : GoString) (h : isBytes s) :
    QueryUnescape (QueryEscape s) = some s := by
  induction s with
  | nil => rfl
  | cons c rest ih =>
    have hc : c < 256 := h c (List.mem_cons_self _ _)
    have ih1 := ih fun b hb => h b (List.mem_cons_of_mem _ hb)
    unfold QueryEscape
    by_cases hsp : c = 0x20
    · simp only [hsp, if_true, List.singleton_append]
      rw [QueryUnescape.eq_def]
      simp [ih1]
    · by_cases he : shouldEscape c = true
      · have h1 := upperhex_spec (c / 16) (by omega)
        have h2 := upperhex_spec (c % 16) (by omega)
        simp only [hsp, he, if_true, if_false, List.cons_append, List.nil_append]
        rw [QueryUnescape.eq_def]
        simp [ih1, h1.1, h1.2, h2.1, h2.2]
        omega
      · have he1 : shouldEscape c = false := by simpa using he
        have hne := shouldEscape_false c he1
        simp only [hsp, he1, if_false, Bool.false_eq_true, List.singleton_append]
        rw [QueryUnescape_cons_plain c _ hne.1 hne.2.1, ih1]
        rfl

theorem upperhex_ne (n : Nat) : upperhex n ≠ 0x26 ∧ upperhex n ≠ 0x3D ∧ upperhex n ≠ 0x3B := by
  unfold upperhex
  split <;> omega

/-- Escaped text holds no `&`, no `=` and no `;`. -/
theorem QueryEscape_clean (s : GoString) :
    ∀ x ∈ QueryEscape s, x ≠ 0x26 ∧ x ≠ 0x3D ∧ x ≠ 0x3B := by
  induction s with
  | nil => intro x hx; simp [QueryEscape] at hx
  | cons c rest ih =>
    intro x hx
    unfold QueryEscape at hx
    rw [List.mem_append] at hx
    rcases hx with hx | hx
    · by_cases hsp : c = 0x20
      · simp [hsp] at hx; omega
      · by_cases he : shouldEscape c = true
        · simp [hsp, he] at hx
          rcases hx with hx | hx | hx
          · omega
          · rw [hx]; exact upperhex_ne _
          · rw [hx]; exact upperhex_ne _
        · have he1 : shouldEscape c = false := by simpa using he
          have hne := shouldEscape_false c he1
          simp [hsp, he1] at hx
          rw [hx]; exact ⟨hne.2.2.1, hne.2.2.2.1, hne.2.2.2.2⟩
    · exact ih x hx

theorem cut_append (sep : Nat) (k v : GoString) (h : sep ∉ k) :
    cut sep (k ++ sep :: v) = (k, v) := by
  induction k with
  | nil => simp [cut]
  | cons c k ih =>
    have hc : c ≠ sep := fun e => h (e ▸ List.mem_cons_self _ _)
    have ih1 := ih fun hm => h (List.mem_cons_of_mem _ hm)
    simp [cut, hc, ih1]

theorem splitOn_none (sep : Nat) (s : GoString) (h : sep ∉ s) : splitOn sep s = [s] := by
  induction s with
  | nil => rfl
  | cons c s ih =>
    have hc : c ≠ sep := fun e => h (e ▸ List.mem_cons_self _ _)
    have ih1 := ih fun hm => h (List.mem_cons_of_mem _ hm)
    simp [splitOn, hc, ih1]

theorem splitOn_append (sep : Nat) (a b : GoString) (h : sep ∉ a) :
    splitOn sep (a ++ sep :: b) = a :: splitOn sep b := by
  induction a with
  | nil => simp [splitOn]
  | cons c a ih =>
    have hc : c ≠ sep := fun e => h (e ▸ List.mem_cons_self _ _)
    have ih1 := ih fun hm => h (List.mem_cons_of_mem _ hm)
    simp [splitOn, hc, ih1]

/-- One round of `parseQuery` on an escaped pair. -/
theorem parseQueryStep_pair (acc : Values × Bool) (k v : GoString)
    (hk : isBytes k) (hv : isBytes v) :
    parseQueryStep acc (QueryEscape k ++ 0x3D :: QueryEscape v)
      = (Values.add k v acc.1, acc.2) := by
  have hck := QueryEscape_clean k
  have hcv := QueryEscape_clean v
  have hsemi : 0x3B ∉ QueryEscape k ++ 0x3D :: QueryEscape v := by
    intro hm
    rw [List.mem_append, List.mem_cons] at hm
    rcases hm with hm | hm | hm
    · exact (hck _ hm).2.2 rfl
    · exact absurd hm (by decide)
    · exact (hcv _ hm).2.2 rfl
  have hnil : QueryEscape k ++ 0x3D :: QueryEscape v ≠ [] := by simp
  have hcut := cut_append 0x3D (QueryEscape k) (QueryEscape v) (fun hm => (hck _ hm).2.1 rfl)
  unfold parseQueryStep
  simp only [hsemi, hnil, if_false, hcut, QueryUnescape_QueryEscape k hk,
    QueryUnescape_QueryEscape v hv]

/-- The body of the login request: the two fields in the order of their keys. -/
theorem authRequest_Body (user pass : GoString) :
    (authRequest user pass).Body =
      (QueryEscape (bytes "password") ++ 0x3D :: QueryEscape pass) ++
        0x26 :: (QueryEscape (bytes "username") ++ 0x3D :: QueryEscape user) := by
  have h1 : strLt (bytes "password") (bytes "username") = true := by decide
  simp [authRequest, NewRequest, Request.setHeader, Values.Encode, sortByKey, insertByKey,
    encodePairs, h1]

/-- Form-decoding the body of the login request gives back the credentials. -/
theorem ParseQuery_authRequest (user pass : GoString) (hu : isBytes user) (hp : isBytes pass) :
    ParseQuery (authRequest user pass).Body =
      ([(bytes "password", [pass]), (bytes "username", [user])], true) := by
  have hamp : 0x26 ∉ QueryEscape (bytes "password") ++ 0x3D :: QueryEscape pass := by
    intro hm
    rw [List.mem_append, List.mem_cons] at hm
    rcases hm with hm | hm | hm
    · exact (QueryEscape_clean _ _ hm).1 rfl
    · exact absurd hm (by decide)
    · exact (QueryEscape_clean _ _ hm).1 rfl
  have hamp2 : 0x26 ∉ QueryEscape (bytes "username") ++ 0x3D :: QueryEscape user := by
    intro hm
    rw [List.mem_append, List.mem_cons] at hm
    rcases hm with hm | hm | hm
    · exact (QueryEscape_clean _ _ hm).1 rfl
    · exact absurd hm (by decide)
    · exact (QueryEscape_clean _ _ hm).1 rfl
  rw [ParseQuery, authRequest_Body, splitOn_append _ _ _ hamp, splitOn_none _ _ hamp2]
  simp only [List.foldl]
  rw [parseQueryStep_pair _ _ _ (by decide) hp, parseQueryStep_pair _ _ _ (by decide) hu]
  have hk : bytes "password" ≠ bytes "username" := by decide
  simp [Values.add, hk]

/-! ## `unicode/utf8`: decoding and encoding -/

/-- A valid multi-byte encoding at the head of `b :: rest`: its bytes `pre` are all at least
0x80 and below 256, decoding sees only them, and encoding the rune gives them back. -/
theorem DecodeRune_valid (b : Nat) (rest : GoString) (hb : 0x80 ≤ b)
    (hv : ¬ ((DecodeRune (b :: rest)).1 = RuneError ∧ (DecodeRune (b :: rest)).2 = 1)) :
    ∃ pre tl, b :: rest = pre ++ tl ∧ pre.length = (DecodeRune (b :: rest)).2 ∧
      2 ≤ pre.length ∧
      EncodeRune (DecodeRune (b :: rest)).1 = pre ∧
      (∀ tl1, DecodeRune (pre ++ tl1) = DecodeRune (b :: rest)) ∧
      (∀ x ∈ pre, 0x80 ≤ x ∧ x < 256) := by
  have h80 : ¬ b < 0x80 := by omega
  by_cases hC2 : b < 0xC2
  · simp [DecodeRune, h80, hC2] at hv
  by_cases hE0 : b < 0xE0
  · cases rest with
    | nil => simp [DecodeRune, h80, hC2, hE0] at hv
    | cons b1 tl =>
      by_cases hr : b1 < 0x80 ∨ 0xBF < b1
      · simp [DecodeRune, h80, hC2, hE0, hr] at hv
      · refine ⟨[b, b1], tl, rfl, ?_, by simp, ?_, ?_, ?_⟩
        · simp [DecodeRune, h80, hC2, hE0, hr]
        · simp only [DecodeRune, h80, hC2, hE0, hr, if_false]
          unfold EncodeRune
          have h1 : ¬ (b % 32 * 64 + b1 % 64 ≤ 0x7F) := by omega
          have h2 : b % 32 * 64 + b1 % 64 ≤ 0x7FF := by omega
          simp only [h1, h2, if_true, if_false]
          congr 1
          · omega
          · congr 1; omega
        · intro tl1
          simp [DecodeRune, h80, hC2, hE0, hr]
        · intro x hx
          simp at hx
          rcases hx with hx | hx <;> omega
  by_cases hF0 : b < 0xF0
  · match rest with
    | [] => simp [DecodeRune, h80, hC2, hE0, hF0] at hv
    | [_] => simp [DecodeRune, h80, hC2, hE0, hF0] at hv
    | b1 :: b2 :: tl =>
      by_cases hr : b1 < (if b = 0xE0 then 0xA0 else 0x80) ∨ (if b = 0xED then 0x9F else 0xBF) < b1
      · simp [DecodeRune, h80, hC2, hE0, hF0, hr] at hv
      · by_cases hr2 : b2 < 0x80 ∨ 0xBF < b2
        · simp [DecodeRune, h80, hC2, hE0, hF0, hr, hr2] at hv
        · have hd : DecodeRune (b :: b1 :: b2 :: tl)
              = (b % 16 * 4096 + b1 % 64 * 64 + b2 % 64, 3) := by
            simp only [DecodeRune, h80, hC2, hE0, hF0, hr, hr2, if_false, if_true]
          have hrange : (b = 0xE0 → 0xA0 ≤ b1) ∧ (b = 0xED → b1 ≤ 0x9F) ∧ 0x80 ≤ b1 ∧ b1 ≤ 0xBF := by
            by_cases h1 : b = 0xE0 <;> by_cases h2 : b = 0xED <;> simp [h1, h2] at hr <;> omega
          refine ⟨[b, b1, b2], tl, rfl, ?_, by simp, ?_, ?_, ?_⟩
          · rw [hd]; rfl
          · rw [hd]
            unfold EncodeRune
            have h1 : ¬ (b % 16 * 4096 + b1 % 64 * 64 + b2 % 64 ≤ 0x7F) := by omega
            have h2 : ¬ (b % 16 * 4096 + b1 % 64 * 64 + b2 % 64 ≤ 0x7FF) := by omega
            have h3 : ¬ (0x10FFFF < b % 16 * 4096 + b1 % 64 * 64 + b2 % 64 ∨
                (0xD800 ≤ b % 16 * 4096 + b1 % 64 * 64 + b2 % 64 ∧
                  b % 16 * 4096 + b1 % 64 * 64 + b2 % 64 ≤ 0xDFFF)) := by omega
            have h4 : b % 16 * 4096 + b1 % 64 * 64 + b2 % 64 ≤ 0xFFFF := by omega
            simp only [h1, h2, h3, h4, if_true, if_false]
            congr 1
            · omega
            · congr 1
              · omega
              · congr 1; omega
          · intro tl1
            rw [hd]
            simp only [List.cons_append, List.nil_append, DecodeRune, h80, hC2, hE0, hF0, hr, hr2,
              if_false, if_true]
          · intro x hx
            simp at hx
            rcases hx with hx | hx | hx <;> omega
  by_cases hF5 : b < 0xF5
  · match rest with
    | [] => simp [DecodeRune, h80, hC2, hE0, hF0, hF5] at hv
    | [_] => simp [DecodeRune, h80, hC2, hE0, hF0, hF5] at hv
    | [_, _] => simp [DecodeRune, h80, hC2, hE0, hF0, hF5] at hv
    | b1 :: b2 :: b3 :: tl =>
      by_cases hr : b1 < (if b = 0xF0 then 0x90 else 0x80) ∨ (if b = 0xF4 then 0x8F else 0xBF) < b1
      · simp [DecodeRune, h80, hC2, hE0, hF0, hF5, hr] at hv
      · by_cases hr2 : b2 < 0x80 ∨ 0xBF < b2
        · simp [DecodeRune, h80, hC2, hE0, hF0, hF5, hr, hr2] at hv
        · by_cases hr3 : b3 < 0x80 ∨ 0xBF < b3
          · simp [DecodeRune, h80, hC2, hE0, hF0, hF5, hr, hr2, hr3] at hv
          · have hd : DecodeRune (b :: b1 :: b2 :: b3 :: tl)
                = (b % 8 * 262144 + b1 % 64 * 4096 + b2 % 64 * 64 + b3 % 64, 4) := by
              simp only [DecodeRune, h80, hC2, hE0, hF0, hF5, hr, hr2, hr3, if_false, if_true]
            have hrange : (b = 0xF0 → 0x90 ≤ b1) ∧ (b = 0xF4 → b1 ≤ 0x8F) ∧ 0x80 ≤ b1 ∧ b1 ≤ 0xBF := by
              by_cases h1 : b = 0xF0 <;> by_cases h2 : b = 0xF4 <;> simp [h1, h2] at hr <;> omega
            refine ⟨[b, b1, b2, b3], tl, rfl, ?_, by simp, ?_, ?_, ?_⟩
            · rw [hd]; rfl
            · rw [hd]
              unfold EncodeRune
              have h1 : ¬ (b % 8 * 262144 + b1 % 64 * 4096 + b2 % 64 * 64 + b3 % 64 ≤ 0x7F) := by
                omega
              have h2 : ¬ (b % 8 * 262144 + b1 % 64 * 4096 + b2 % 64 * 64 + b3 % 64 ≤ 0x7FF) := by
                omega
              have h3 : ¬ (0x10FFFF < b % 8 * 262144 + b1 % 64 * 4096 + b2 % 64 * 64 + b3 % 64 ∨
                  (0xD800 ≤ b % 8 * 262144 + b1 % 64 * 4096 + b2 % 64 * 64 + b3 % 64 ∧
                    b % 8 * 262144 + b1 % 64 * 4096 + b2 % 64 * 64 + b3 % 64 ≤ 0xDFFF)) := by
                omega
              have h4 : ¬ (b % 8 * 262144 + b1 % 64 * 4096 + b2 % 64 * 64 + b3 % 64 ≤ 0xFFFF) := by
                omega
              simp only [h1, h2, h3, h4, if_false]
              congr 1
              · omega
              · congr 1
                · omega
                · congr 1
                  · omega
                  · congr 1; omega
            · intro tl1
              rw [hd]
              simp only [List.cons_append, List.nil_append, DecodeRune, h80, hC2, hE0, hF0, hF5,
                hr, hr2, hr3, if_false, if_true]
            · intro x hx
              simp at hx
              rcases hx with hx | hx | hx | hx <;> omega
  · simp [DecodeRune, h80, hC2, hE0, hF0, hF5] at hv

/-! ## `encoding/json`: a string literal decodes to the string it was made from -/

theorem hex_spec (n : Nat) (h : n < 16) : ishex (hex n) = true ∧ unhex (hex n) = n := by
  revert n; decide

/-- One round of the loop of `readStringAux`. -/
theorem readStringAux_cons (fuel c : Nat) (cs : GoString) :
    readStringAux (fuel + 1) (c :: cs) =
      if c = 0x22 then some ([], cs)
      else if c = 0x5C then
        match cs with
        | [] => none
        | e :: cs1 =>
          if e = 0x75 then
            match readHex4 cs1 with
            | none => none
            | some (rr, cs2) =>
              (readStringAux fuel (unquoteU rr cs2).2).map fun r =>
                ((unquoteU rr cs2).1 ++ r.1, r.2)
          else
            match unquoteSimple e with
            | none => none
            | some b => (readStringAux fuel cs1).map fun r => (b :: r.1, r.2)
      else if c < 0x20 then none
      else if c < 0x80 then (readStringAux fuel cs).map fun r => (c :: r.1, r.2)
      else
        (readStringAux fuel (cs.drop ((DecodeRune (c :: cs)).2 - 1))).map fun r =>
          (EncodeRune (DecodeRune (c :: cs)).1 ++ r.1, r.2) := rfl

theorem readStringAux_quote (fuel : Nat) (cs : GoString) :
    readStringAux (fuel + 1) (0x22 :: cs) = some ([], cs) := by
  rw [readStringAux_cons]; simp

theorem unquoteU_plain (rr : Nat) (s : GoString) (h : ¬ (0xD800 ≤ rr ∧ rr < 0xE000)) :
    unquoteU rr s = (EncodeRune rr, s) := by
  unfold unquoteU
  rw [if_neg h]

theorem readStringAux_plain (fuel c : Nat) (cs : GoString)
    (h1 : 0x20 ≤ c) (h2 : c < 0x80) (h3 : c ≠ 0x22) (h4 : c ≠ 0x5C) :
    readStringAux (fuel + 1) (c :: cs) =
      (readStringAux fuel cs).map fun r => (c :: r.1, r.2) := by
  have h5 : ¬ c < 0x20 := by omega
  rw [readStringAux_cons]
  simp only [h3, h4, h5, h2, if_false, if_true]

theorem readStringAux_simple (fuel e b : Nat) (cs : GoString)
    (he : e ≠ 0x75) (hs : unquoteSimple e = some b) :
    readStringAux (fuel + 1) (0x5C :: e :: cs) =
      (readStringAux fuel cs).map fun r => (b :: r.1, r.2) := by
  rw [readStringAux_cons]
  simp [he, hs]

theorem readStringAux_u (fuel h1 h2 h3 h4 : Nat) (cs : GoString)
    (hh : (ishex h1 && ishex h2 && ishex h3 && ishex h4) = true)
    (hns : ¬ (0xD800 ≤ unhex h1 * 4096 + unhex h2 * 256 + unhex h3 * 16 + unhex h4 ∧
      unhex h1 * 4096 + unhex h2 * 256 + unhex h3 * 16 + unhex h4 < 0xE000)) :
    readStringAux (fuel + 1) (0x5C :: 0x75 :: h1 :: h2 :: h3 :: h4 :: cs) =
      (readStringAux fuel cs).map fun r =>
        (EncodeRune (unhex h1 * 4096 + unhex h2 * 256 + unhex h3 * 16 + unhex h4) ++ r.1, r.2) := by
  rw [readStringAux_cons]
  simp [readHex4, hh, unquoteU_plain _ _ hns]

theorem readStringAux_escapeByte (fuel b : Nat) (cs : GoString)
    (hb : b < 0x80) (hs : htmlSafeSet b = false) :
    readStringAux (fuel + 1) (escapeByte b ++ cs) =
      (readStringAux fuel cs).map fun r => (b :: r.1, r.2) := by
  unfold escapeByte
  by_cases h1 : b = 0x5C ∨ b = 0x22
  · simp only [h1, if_true, List.cons_append, List.nil_append]
    exact readStringAux_simple fuel b b cs (by omega) (by
      rcases h1 with h | h <;> subst h <;> rfl)
  simp only [h1, if_false]
  by_cases h2 : b = 0x08
  · subst h2; exact readStringAux_simple fuel _ _ cs (by decide) rfl
  by_cases h3 : b = 0x0C
  · subst h3; exact readStringAux_simple fuel _ _ cs (by decide) rfl
  by_cases h4 : b = 0x0A
  · subst h4; exact readStringAux_simple fuel _ _ cs (by decide) rfl
  by_cases h5 : b = 0x0D
  · subst h5; exact readStringAux_simple fuel _ _ cs (by decide) rfl
  by_cases h6 : b = 0x09
  · subst h6; exact readStringAux_simple fuel _ _ cs (by decide) rfl
  simp only [h2, h3, h4, h5, h6, if_false, List.cons_append, List.nil_append]
  have hh1 := hex_spec (b / 16) (by omega)
  have hh2 := hex_spec (b % 16) (by omega)
  have h0 : ishex 0x30 = true ∧ unhex 0x30 = 0 := by decide
  have hval : unhex 0x30 * 4096 + unhex 0x30 * 256 + unhex (hex (b / 16)) * 16
      + unhex (hex (b % 16)) = b := by
    rw [h0.2, hh1.2, hh2.2]; omega
  rw [readStringAux_u fuel _ _ _ _ cs (by simp [h0.1, hh1.1, hh2.1]) (by rw [hval]; omega)]
  rw [hval]
  have he : EncodeRune b = [b] := by
    unfold EncodeRune
    simp [show b ≤ 0x7F by omega]
  rw [he]
  rfl

theorem appendStringAux_nil (n : Nat) : appendStringAux n [] = [] := by
  cases n <;> rfl

theorem appendStringAux_cons (n b : Nat) (rest : GoString) :
    appendStringAux (n + 1) (b :: rest) =
      if b < 0x80 then
        (if htmlSafeSet b then [b] else escapeByte b) ++ appendStringAux n rest
      else
        if (DecodeRune (b :: rest)).1 = RuneError ∧ (DecodeRune (b :: rest)).2 = 1 then
          [0x5C, 0x75, 0x66, 0x66, 0x66, 0x64] ++ appendStringAux n rest
        else if (DecodeRune (b :: rest)).1 = 0x2028 ∨ (DecodeRune (b :: rest)).1 = 0x2029 then
          [0x5C, 0x75, 0x32, 0x30, 0x32, hex ((DecodeRune (b :: rest)).1 % 16)] ++
            appendStringAux n (rest.drop ((DecodeRune (b :: rest)).2 - 1))
        else
          (b :: rest).take (DecodeRune (b :: rest)).2 ++
            appendStringAux n (rest.drop ((DecodeRune (b :: rest)).2 - 1)) := rfl

theorem validStringAux_cons (n b : Nat) (rest : GoString) :
    validStringAux (n + 1) (b :: rest) =
      if (DecodeRune (b :: rest)).1 = RuneError ∧ (DecodeRune (b :: rest)).2 = 1 then false
      else validStringAux n (rest.drop ((DecodeRune (b :: rest)).2 - 1)) := rfl

theorem escapeByte_length (b : Nat) : 1 ≤ (escapeByte b).length := by
  unfold escapeByte
  repeat' split
  all_goals simp

/-- The shape of a string with a valid multi-byte encoding at its head. -/
theorem valid_head_split (b : Nat) (rest : GoString) (hb : 0x80 ≤ b)
    (hv : ¬ ((DecodeRune (b :: rest)).1 = RuneError ∧ (DecodeRune (b :: rest)).2 = 1)) :
    ∃ pre1 tl, rest = pre1 ++ tl ∧ pre1.length = (DecodeRune (b :: rest)).2 - 1 ∧
      1 ≤ pre1.length ∧
      EncodeRune (DecodeRune (b :: rest)).1 = b :: pre1 ∧
      (∀ tl1, DecodeRune (b :: (pre1 ++ tl1)) = DecodeRune (b :: rest)) ∧
      (∀ x ∈ b :: pre1, 0x80 ≤ x ∧ x < 256) := by
  obtain ⟨pre, tl, hsplit, hlen, h2, henc, hdec, hbytes⟩ := DecodeRune_valid b rest hb hv
  cases pre with
  | nil => simp at h2
  | cons c pre1 =>
    simp only [List.cons_append, List.cons.injEq] at hsplit
    obtain ⟨hc, hrest⟩ := hsplit
    subst hc
    refine ⟨pre1, tl, hrest, ?_, ?_, henc, ?_, hbytes⟩
    · simp at hlen; omega
    · simp at h2; omega
    · intro tl1; exact hdec tl1

/-- Decoding undoes `appendString`: the literal written for a valid UTF-8 string, followed by
anything, reads back as that string. -/
theorem readStringAux_appendStringAux (n : Nat) :
    ∀ (u rest : GoString) (fuel : Nat), validStringAux n u = true → u.length ≤ n →
      (appendStringAux n u).length + 1 ≤ fuel →
      readStringAux fuel (appendStringAux n u ++ 0x22 :: rest) = some (u, rest) := by
  induction n with
  | zero =>
    intro u rest fuel _ hlen hfuel
    cases u with
    | nil =>
      obtain ⟨f, rfl⟩ : ∃ f, fuel = f + 1 := ⟨fuel - 1, by omega⟩
      rw [appendStringAux_nil]
      exact readStringAux_quote f rest
    | cons b r => simp at hlen
  | succ n ih =>
    intro u rest fuel hv hlen hfuel
    cases u with
    | nil =>
      obtain ⟨f, rfl⟩ : ∃ f, fuel = f + 1 := ⟨fuel - 1, by omega⟩
      rw [appendStringAux_nil]
      exact readStringAux_quote f rest
    | cons b r =>
      obtain ⟨f, rfl⟩ : ∃ f, fuel = f + 1 := ⟨fuel - 1, by omega⟩
      rw [validStringAux_cons] at hv
      rw [appendStringAux_cons] at hfuel ⊢
      simp only [List.length_cons] at hlen
      by_cases hb : b < 0x80
      · have hd : DecodeRune (b :: r) = (b, 1) := by simp [DecodeRune, hb]
        have hne : ¬ b = RuneError := by
          unfold RuneError; omega
        simp only [hd, hne, false_and, if_false, Nat.sub_self, List.drop_zero] at hv
        simp only [hb, if_true] at hfuel ⊢
        have hf : (appendStringAux n r).length + 1 ≤ f := by
          have := escapeByte_length b
          by_cases hs : htmlSafeSet b = true
          · simp [hs] at hfuel; omega
          · simp [hs] at hfuel; omega
        have ih1 := ih r rest f hv (by omega) hf
        by_cases hs : htmlSafeSet b = true
        · simp only [hs, if_true, List.singleton_append, List.cons_append, List.nil_append]
          have hsafe := hs
          simp [htmlSafeSet] at hsafe
          rw [readStringAux_plain f b _ (by omega) hb (by omega) (by omega), ih1]
          rfl
        · have hs1 : htmlSafeSet b = false := by simpa using hs
          simp only [hs1, if_false, Bool.false_eq_true, List.append_assoc]
          rw [readStringAux_escapeByte f b _ hb hs1, ih1]
          rfl
      · have hcond : ¬ ((DecodeRune (b :: r)).1 = RuneError ∧ (DecodeRune (b :: r)).2 = 1) := by
          intro hc
          simp [hc] at hv
        simp only [hcond, if_false] at hv
        simp only [hb, hcond, if_false] at hfuel ⊢
        obtain ⟨pre1, tl, hsplit, hlen1, hpos, henc, hdec, hbytes⟩ :=
          valid_head_split b r (by omega) hcond
        have hdrop : r.drop ((DecodeRune (b :: r)).2 - 1) = tl := by
          rw [← hlen1, hsplit]; simp
        have htake : (b :: r).take (DecodeRune (b :: r)).2 = b :: pre1 := by
          have h2 : (DecodeRune (b :: r)).2 = pre1.length + 1 := by omega
          rw [h2, hsplit]; simp
        rw [hdrop] at hv hfuel ⊢
        have hlr : r.length = pre1.length + tl.length := by rw [hsplit]; simp
        by_cases h28 : (DecodeRune (b :: r)).1 = 0x2028 ∨ (DecodeRune (b :: r)).1 = 0x2029
        · simp only [h28, if_true] at hfuel ⊢
          have hf : (appendStringAux n tl).length + 1 ≤ f := by
            simp at hfuel; omega
          have ih1 := ih tl rest f hv (by omega) hf
          have hx : ishex (hex ((DecodeRune (b :: r)).1 % 16)) = true ∧
              unhex 0x32 * 4096 + unhex 0x30 * 256 + unhex 0x32 * 16 +
                unhex (hex ((DecodeRune (b :: r)).1 % 16)) = (DecodeRune (b :: r)).1 := by
            rcases h28 with h | h <;> rw [h] <;> decide
          simp only [List.cons_append, List.nil_append]
          rw [readStringAux_u f _ _ _ _ _ (by simp [hx.1]; decide) (by rw [hx.2]; omega), ih1,
            hx.2, henc, hsplit]
          simp
        · simp only [h28, if_false] at hfuel ⊢
          rw [htake] at hfuel ⊢
          have hf : (appendStringAux n tl).length + 1 ≤ f := by
            simp at hfuel; omega
          have ih1 := ih tl rest f hv (by omega) hf
          have hb0 := hbytes b (List.mem_cons_self _ _)
          simp only [List.cons_append, List.append_assoc]
          rw [readStringAux_cons]
          have e1 : ¬ b = 0x22 := by omega
          have e2 : ¬ b = 0x5C := by omega
          have e3 : ¬ b < 0x20 := by omega
          simp only [e1, e2, e3, hb, if_false]
          rw [hdec, henc]
          have hd2 : (pre1 ++ (appendStringAux n tl ++ 0x22 :: rest)).drop
              ((DecodeRune (b :: r)).2 - 1) = appendStringAux n tl ++ 0x22 :: rest := by
            rw [← hlen1]; simp
          rw [hd2, ih1, hsplit]
          simp

/-- Decoding undoes `appendString`, for the fuel that `readString` takes. -/
theorem readString_appendString (u rest : GoString) (hv : ValidString u = true) :
    readString (appendStringAux u.length u ++ 0x22 :: rest) = some (u, rest) := by
  unfold readString
  exact readStringAux_appendStringAux u.length u rest _ hv (Nat.le_refl _) (by simp)

/-! ## `encoding/json`: an object of strings decodes to its entries -/

theorem skipSpace_quote (cs : GoString) : skipSpace (0x22 :: cs) = 0x22 :: cs := by
  simp [skipSpace, isSpace]

theorem appendString_eq (s : GoString) :
    appendString s = 0x22 :: (appendStringAux s.length s ++ [0x22]) := rfl

/-- A string literal at the head of the input is decoded as a value. -/
theorem parseValue_string (fuel depth : Nat) (v rest : GoString) (hv : ValidString v = true) :
    parseValue (fuel + 1) depth (appendString v ++ rest) = some (JSON.str v, rest) := by
  rw [appendString_eq, parseValue]
  simp only [List.cons_append, List.append_assoc, List.nil_append, skipSpace_quote]
  simp [readString_appendString v rest hv]

/-- The last member of an object whose value is a string. -/
theorem parseMembers_last (fuel depth : Nat) (k v rest : GoString)
    (hk : ValidString k = true) (hv : ValidString v = true) :
    parseMembers (fuel + 2) depth (appendString k ++ 0x3A :: (appendString v ++ 0x7D :: rest))
      = some ([(k, JSON.str v)], rest) := by
  rw [parseMembers, appendString_eq k]
  simp only [List.cons_append, List.append_assoc, List.nil_append, skipSpace_quote]
  simp [readString_appendString k _ hk, skipSpace, isSpace, parseValue_string fuel depth v _ hv]

/-- A member of an object whose value is a string, followed by a comma. -/
theorem parseMembers_cons (fuel depth : Nat) (k v rest : GoString)
    (hk : ValidString k = true) (hv : ValidString v = true) :
    parseMembers (fuel + 2) depth (appendString k ++ 0x3A :: (appendString v ++ 0x2C :: rest))
      = (parseMembers (fuel + 1) depth rest).map fun t => ((k, JSON.str v) :: t.1, t.2) := by
  rw [parseMembers, appendString_eq k]
  simp only [List.cons_append, List.append_assoc, List.nil_append, skipSpace_quote]
  simp [readString_appendString k _ hk, skipSpace, isSpace, parseValue_string fuel depth v _ hv]

/-- The text that `json.Marshal` writes for a map of two strings reads back as an object with
these two entries. -/
theorem Unmarshal_two_entries (k1 v1 k2 v2 : GoString)
    (h1 : ValidString k1 = true) (h2 : ValidString v1 = true)
    (h3 : ValidString k2 = true) (h4 : ValidString v2 = true) :
    Unmarshal (0x7B :: (marshalEntries [(k1, v1), (k2, v2)] ++ [0x7D]))
      = some (JSON.obj [(k1, JSON.str v1), (k2, JSON.str v2)]) := by
  unfold Unmarshal
  generalize hlen : (0x7B :: (marshalEntries [(k1, v1), (k2, v2)] ++ [0x7D])).length = len
  have htext : 0x7B :: (marshalEntries [(k1, v1), (k2, v2)] ++ [0x7D]) =
      0x7B :: (appendString k1 ++ 0x3A :: (appendString v1 ++ 0x2C ::
        (appendString k2 ++ 0x3A :: (appendString v2 ++ 0x7D :: [])))) := by
    simp [marshalEntries]
  have hl : 1 ≤ len := by rw [← hlen]; simp
  obtain ⟨f, rfl⟩ : ∃ f, len = f + 1 := ⟨len - 1, by omega⟩
  rw [htext, show 2 * (f + 1) + 2 = (2 * f + 1) + 2 + 1 by omega, parseValue]
  have hsk : skipSpace (0x7B :: (appendString k1 ++ 0x3A :: (appendString v1 ++ 0x2C ::
        (appendString k2 ++ 0x3A :: (appendString v2 ++ 0x7D :: []))))) =
      0x7B :: (appendString k1 ++ 0x3A :: (appendString v1 ++ 0x2C ::
        (appendString k2 ++ 0x3A :: (appendString v2 ++ 0x7D :: [])))) := by
    simp [skipSpace, isSpace]
  rw [hsk]
  have hd : ¬ maxNestingDepth < 0 + 1 := by decide
  simp only [hd, if_false, if_true]
  have hq : skipSpace (appendString k1 ++ 0x3A :: (appendString v1 ++ 0x2C ::
        (appendString k2 ++ 0x3A :: (appendString v2 ++ 0x7D :: [])))) =
      0x22 :: (appendStringAux k1.length k1 ++ [0x22] ++ 0x3A :: (appendString v1 ++ 0x2C ::
        (appendString k2 ++ 0x3A :: (appendString v2 ++ 0x7D :: [])))) := by
    rw [appendString_eq k1]
    simp [skipSpace_quote]
  rw [hq]
  have hback : 0x22 :: (appendStringAux k1.length k1 ++ [0x22] ++ 0x3A :: (appendString v1 ++
        0x2C :: (appendString k2 ++ 0x3A :: (appendString v2 ++ 0x7D :: [])))) =
      appendString k1 ++ 0x3A :: (appendString v1 ++ 0x2C ::
        (appendString k2 ++ 0x3A :: (appendString v2 ++ 0x7D :: []))) := by
    rw [appendString_eq k1]; simp
  have hne : ¬ (0x22 : Nat) = 0x7D := by decide
  simp only [hne, if_false]
  rw [hback, parseMembers_cons (2 * f + 1) _ k1 v1 _ h1 h2,
    show 2 * f + 1 + 1 = 2 * f + 2 by omega, parseMembers_last (2 * f) _ k2 v2 _ h3 h4]
  simp [skipSpace]

theorem isBytes_append (a b : GoString) (ha : isBytes a) (hb : isBytes b) : isBytes (a ++ b) := by
  intro x hx
  rw [List.mem_append] at hx
  rcases hx with h | h
  · exact ha x h
  · exact hb x h

theorem hex_lt (n : Nat) (h : n < 16) : hex n < 256 := by
  unfold hex; split <;> omega

theorem isBytes_escapeByte (b : Nat) (hb : b < 0x80) : isBytes (escapeByte b) := by
  have h1 := hex_lt (b / 16) (by omega)
  have h2 := hex_lt (b % 16) (by omega)
  unfold escapeByte
  repeat' split
  all_goals (intro x hx; simp at hx; omega)

/-- Whatever the input, `appendString` writes bytes. -/
theorem isBytes_appendStringAux (n : Nat) : ∀ s : GoString, isBytes (appendStringAux n s) := by
  induction n with
  | zero =>
    intro s
    cases s with
    | nil => intro x hx; simp [appendStringAux] at hx
    | cons b r => intro x hx; simp [appendStringAux] at hx
  | succ n ih =>
    intro s
    cases s with
    | nil => intro x hx; simp [appendStringAux] at hx
    | cons b r =>
      rw [appendStringAux_cons]
      by_cases hb : b < 0x80
      · simp only [hb, if_true]
        apply isBytes_append _ _ _ (ih r)
        split
        · intro x hx; simp at hx; omega
        · exact isBytes_escapeByte b hb
      · simp only [hb, if_false]
        by_cases hcond : (DecodeRune (b :: r)).1 = RuneError ∧ (DecodeRune (b :: r)).2 = 1
        · simp only [hcond, and_self, if_true]
          apply isBytes_append _ _ _ (ih r)
          intro x hx; simp at hx; omega
        · simp only [hcond, if_false]
          obtain ⟨pre1, tl, hsplit, hlen1, hpos, henc, hdec, hbytes⟩ :=
            valid_head_split b r (by omega) hcond
          by_cases h28 : (DecodeRune (b :: r)).1 = 0x2028 ∨ (DecodeRune (b :: r)).1 = 0x2029
          · simp only [h28, if_true]
            apply isBytes_append _ _ _ (ih _)
            have := hex_lt ((DecodeRune (b :: r)).1 % 16) (by omega)
            intro x hx; simp at hx; omega
          · simp only [h28, if_false]
            apply isBytes_append _ _ _ (ih _)
            have htake : (b :: r).take (DecodeRune (b :: r)).2 = b :: pre1 := by
              have h2 : (DecodeRune (b :: r)).2 = pre1.length + 1 := by omega
              rw [h2, hsplit]; simp
            rw [htake]
            intro x hx
            exact (hbytes x hx).2

theorem isBytes_appendString (s : GoString) : isBytes (appendString s) := by
  intro x hx
  rw [appendString_eq] at hx
  simp only [List.mem_cons, List.mem_append, List.mem_singleton] at hx
  rcases hx with h | h | h
  · omega
  · exact isBytes_appendStringAux _ _ x h
  · simp at h; omega

/-- The text that `json.Marshal` writes for the map of `enableMoCA`. -/
theorem Marshal_configData (user : GoString) :
    Marshal (configData user) =
      0x7B :: (marshalEntries [(bytes "moca_enable", bytes "true"), (bytes "thisUser", user)]
        ++ [0x7D]) := by
  have h : strLt (bytes "thisUser") (bytes "moca_enable") = false := by decide
  simp [Marshal, configData, sortByKey, insertByKey, h]

theorem isBytes_cons (b : Nat) (s : GoString) (hb : b < 256) (hs : isBytes s) :
    isBytes (b :: s) := by
  intro x hx
  rw [List.mem_cons] at hx
  rcases hx with h | h
  · omega
  · exact hs x h

theorem isBytes_Marshal_configData (user : GoString) :
    isBytes (Marshal (configData user)) := by
  rw [Marshal_configData]
  have hsep : ∀ b : Nat, b < 256 → isBytes [b] := fun b hb => isBytes_cons b [] hb (by
    intro x hx; simp at hx)
  simp only [marshalEntries]
  apply isBytes_cons _ _ (by omega)
  apply isBytes_append _ _ _ (hsep _ (by omega))
  apply isBytes_append
  · apply isBytes_append _ _ _ (hsep _ (by omega))
    apply isBytes_append _ _ _ (isBytes_appendString _)
    apply isBytes_append _ _ _ (hsep _ (by omega))
    exact isBytes_appendString _
  · apply isBytes_append _ _ _ (isBytes_appendString _)
    apply isBytes_append _ _ _ (hsep _ (by omega))
    exact isBytes_appendString _

/-- Form-decoding the body of the enable request gives the one field `configInfo`, whose
value is the JSON text of the map. -/
theorem ParseQuery_enableBody (user : GoString) :
    ParseQuery (enableBody user) =
      ([(bytes "configInfo", [Marshal (configData user)])], true) := by
  have hbody : enableBody user = QueryEscape (bytes "configInfo") ++ 0x3D ::
      QueryEscape (Marshal (configData user)) := by
    simp [enableBody, Values.Encode, sortByKey, insertByKey, encodePairs]
  have hamp : 0x26 ∉ QueryEscape (bytes "configInfo") ++ 0x3D ::
      QueryEscape (Marshal (configData user)) := by
    intro hm
    rw [List.mem_append, List.mem_cons] at hm
    rcases hm with hm | hm | hm
    · exact (QueryEscape_clean _ _ hm).1 rfl
    · exact absurd hm (by decide)
    · exact (QueryEscape_clean _ _ hm).1 rfl
  rw [ParseQuery, hbody, splitOn_none _ _ hamp]
  simp only [List.foldl]
  rw [parseQueryStep_pair _ _ _ (by decide) (isBytes_Marshal_configData user)]
  rfl

/-! ## Fuel: the length of the input is always enough -/

/-- The encoder gives the same text with any fuel that is at least the length. -/
theorem appendStringAux_fuel (n : Nat) :
    ∀ (m : Nat) (s : GoString), s.length ≤ n → s.length ≤ m →
      appendStringAux n s = appendStringAux m s := by
  induction n with
  | zero =>
    intro m s hn _
    cases s with
    | nil => rw [appendStringAux_nil, appendStringAux_nil]
    | cons b r => simp at hn
  | succ n ih =>
    intro m s hn hm
    cases s with
    | nil => rw [appendStringAux_nil, appendStringAux_nil]
    | cons b r =>
      obtain ⟨m1, rfl⟩ : ∃ m1, m = m1 + 1 := ⟨m - 1, by simp at hm; omega⟩
      simp only [List.length_cons] at hn hm
      rw [appendStringAux_cons, appendStringAux_cons]
      have h1 := ih m1 r (by omega) (by omega)
      have h2 := ih m1 (r.drop ((DecodeRune (b :: r)).2 - 1))
        (by simp; omega) (by simp; omega)
      rw [h1, h2]

/-- The validity check gives the same answer with any fuel that is at least the length. -/
theorem validStringAux_fuel (n : Nat) :
    ∀ (m : Nat) (s : GoString), s.length ≤ n → s.length ≤ m →
      validStringAux n s = validStringAux m s := by
  induction n with
  | zero =>
    intro m s hn _
    cases s with
    | nil => cases m <;> rfl
    | cons b r => simp at hn
  | succ n ih =>
    intro m s hn hm
    cases s with
    | nil => cases m <;> rfl
    | cons b r =>
      obtain ⟨m1, rfl⟩ : ∃ m1, m = m1 + 1 := ⟨m - 1, by simp at hm; omega⟩
      simp only [List.length_cons] at hn hm
      rw [validStringAux_cons, validStringAux_cons]
      rw [ih m1 (r.drop ((DecodeRune (b :: r)).2 - 1)) (by simp; omega) (by simp; omega)]

theorem readHex4_length (s rest : GoString) (rr : Nat) (h : readHex4 s = some (rr, rest)) :
    rest.length + 4 = s.length := by
  match s, h with
  | h1 :: h2 :: h3 :: h4 :: r, h =>
    simp only [readHex4] at h
    split at h
    · simp at h; rw [← h.2]; simp
    · simp at h

theorem unquoteU_length (rr : Nat) (s : GoString) : (unquoteU rr s).2.length ≤ s.length := by
  unfold unquoteU
  split
  · cases hg : getu4 s with
    | none => simp
    | some p =>
      obtain ⟨rr1, rest⟩ := p
      simp only []
      split
      · simp only []
        match s, hg with
        | c :: u :: r, hg =>
          simp only [getu4] at hg
          split at hg
          · have := readHex4_length _ _ _ hg
            simp; omega
          · simp at hg
      · simp
  · simp

/-- A string literal that reads with some fuel reads the same with any fuel that is at least
the length of the input: `readString` never fails for lack of fuel. -/
theorem readStringAux_fuel (f : Nat) :
    ∀ (s : GoString) (r : GoString × GoString) (g : Nat),
      readStringAux f s = some r → s.length ≤ g → readStringAux g s = some r := by
  induction f with
  | zero => intro s r g h _; simp [readStringAux] at h
  | succ f ih =>
    intro s r g h hg
    cases s with
    | nil => simp [readStringAux] at h
    | cons c cs =>
      obtain ⟨g1, rfl⟩ : ∃ g1, g = g1 + 1 := ⟨g - 1, by simp at hg; omega⟩
      simp only [List.length_cons] at hg
      rw [readStringAux_cons] at h ⊢
      by_cases h1 : c = 0x22
      · simpa [h1] using h
      simp only [h1, if_false] at h ⊢
      by_cases h2 : c = 0x5C
      · simp only [h2, if_true] at h ⊢
        cases cs with
        | nil => simp at h
        | cons e cs1 =>
          simp only [List.length_cons] at hg
          simp only [] at h ⊢
          by_cases h3 : e = 0x75
          · simp only [h3, if_true] at h ⊢
            cases hh : readHex4 cs1 with
            | none => simp [hh] at h
            | some p =>
              obtain ⟨rr, cs2⟩ := p
              simp only [hh] at h ⊢
              have hl := readHex4_length _ _ _ hh
              have hu := unquoteU_length rr cs2
              cases hr : readStringAux f (unquoteU rr cs2).2 with
              | none => simp [hr] at h
              | some q =>
                rw [ih _ q g1 hr (by omega)]
                simpa [hr] using h
          · simp only [h3, if_false] at h ⊢
            cases hs : unquoteSimple e with
            | none => simp [hs] at h
            | some b =>
              simp only [hs] at h ⊢
              cases hr : readStringAux f cs1 with
              | none => simp [hr] at h
              | some q =>
                rw [ih _ q g1 hr (by omega)]
                simpa [hr] using h
      simp only [h2, if_false] at h ⊢
      by_cases h3 : c < 0x20
      · simp [h3] at h
      simp only [h3, if_false] at h ⊢
      by_cases h4 : c < 0x80
      · simp only [h4, if_true] at h ⊢
        cases hr : readStringAux f cs with
        | none => simp [hr] at h
        | some q =>
          rw [ih _ q g1 hr (by omega)]
          simpa [hr] using h
      · simp only [h4, if_false] at h ⊢
        cases hr : readStringAux f (cs.drop ((DecodeRune (c :: cs)).2 - 1)) with
        | none => simp [hr] at h
        | some q =>
          rw [ih _ q g1 hr (by simp; omega)]
          simpa [hr] using h

/-- The remaining input after a string literal is shorter than the input. -/
theorem readStringAux_length (f : Nat) :
    ∀ (s : GoString) (r : GoString × GoString),
      readStringAux f s = some r → r.2.length < s.length := by
  induction f with
  | zero => intro s r h; simp [readStringAux] at h
  | succ f ih =>
    intro s r h
    cases s with
    | nil => simp [readStringAux] at h
    | cons c cs =>
      rw [readStringAux_cons] at h
      by_cases h1 : c = 0x22
      · simp [h1] at h; rw [← h]; simp
      simp only [h1, if_false] at h
      by_cases h2 : c = 0x5C
      · simp only [h2, if_true] at h
        cases cs with
        | nil => simp at h
        | cons e cs1 =>
          simp only [] at h
          by_cases h3 : e = 0x75
          · simp only [h3, if_true] at h
            cases hh : readHex4 cs1 with
            | none => simp [hh] at h
            | some p =>
              obtain ⟨rr, cs2⟩ := p
              simp only [hh] at h
              have hl := readHex4_length _ _ _ hh
              have hu := unquoteU_length rr cs2
              cases hr : readStringAux f (unquoteU rr cs2).2 with
              | none => simp [hr] at h
              | some q =>
                have := ih _ q hr
                simp [hr] at h
                rw [← h]; simp; omega
          · simp only [h3, if_false] at h
            cases hs : unquoteSimple e with
            | none => simp [hs] at h
            | some b =>
              simp only [hs] at h
              cases hr : readStringAux f cs1 with
              | none => simp [hr] at h
              | some q =>
                have := ih _ q hr
                simp [hr] at h
                rw [← h]; simp; omega
      simp only [h2, if_false] at h
      by_cases h3 : c < 0x20
      · simp [h3] at h
      simp only [h3, if_false] at h
      by_cases h4 : c < 0x80
      · simp only [h4, if_true] at h
        cases hr : readStringAux f cs with
        | none => simp [hr] at h
        | some q =>
          have := ih _ q hr
          simp [hr] at h
          rw [← h]; simp; omega
      · simp only [h4, if_false] at h
        cases hr : readStringAux f (cs.drop ((DecodeRune (c :: cs)).2 - 1)) with
        | none => simp [hr] at h
        | some q =>
          have := ih _ q hr
          simp [hr] at h
          rw [← h]
          simp at this ⊢
          omega

theorem skipSpace_length (s : GoString) : (skipSpace s).length ≤ s.length := by
  induction s with
  | nil => simp [skipSpace]
  | cons c cs ih =>
    simp only [skipSpace]
    split
    · simp; omega
    · simp

theorem takeDigits_length (s : GoString) : (takeDigits s).2.length ≤ s.length := by
  induction s with
  | nil => simp [takeDigits]
  | cons c cs ih =>
    simp only [takeDigits]
    split
    · simp; omega
    · simp

theorem readInt_length (s : GoString) (r : GoString × GoString) (h : readInt s = some r) :
    r.2.length < s.length := by
  unfold readInt at h
  cases s with
  | nil => simp at h
  | cons c t =>
    simp only [] at h
    have := takeDigits_length t
    split at h
    · simp at h; rw [← h]; simp
    · split at h
      · simp at h; rw [← h]; simp; omega
      · simp at h

theorem readFraction_length (s : GoString) (r : GoString × GoString)
    (h : readFraction s = some r) : r.2.length ≤ s.length := by
  unfold readFraction at h
  cases s with
  | nil => simp at h; rw [← h]
  | cons c t =>
    simp only [] at h
    have := takeDigits_length t
    split at h
    · split at h
      · simp at h
      · simp at h; rw [← h]; simp; omega
    · simp at h; rw [← h]

theorem readExponent_length (s : GoString) (r : GoString × GoString)
    (h : readExponent s = some r) : r.2.length ≤ s.length := by
  unfold readExponent at h
  cases s with
  | nil => simp at h; rw [← h]
  | cons e t =>
    simp only [] at h
    have ht := takeDigits_length t
    split at h
    · cases t with
      | nil => simp at h
      | cons sg t1 =>
        simp only [] at h
        have ht1 := takeDigits_length t1
        split at h
        · split at h
          · simp at h
          · simp at h; rw [← h]; simp; omega
        · split at h
          · simp at h
          · simp at h; rw [← h]; simp at ht ⊢; omega
    · simp at h; rw [← h]

theorem readSign_length (s : GoString) : (readSign s).2.length ≤ s.length := by
  unfold readSign
  cases s with
  | nil => simp
  | cons c t =>
    simp only []
    split <;> simp

theorem readNumber_length (s : GoString) (r : GoString × GoString)
    (h : readNumber s = some r) : r.2.length < s.length := by
  unfold readNumber at h
  have h0 := readSign_length s
  cases hi : readInt (readSign s).2 with
  | none => simp [hi] at h
  | some p1 =>
    obtain ⟨i, r1⟩ := p1
    have h1 := readInt_length _ _ hi
    simp only [hi] at h
    cases hf : readFraction r1 with
    | none => simp [hf] at h
    | some p2 =>
      obtain ⟨fr, r2⟩ := p2
      have h2 := readFraction_length _ _ hf
      simp only [hf] at h
      cases he : readExponent r2 with
      | none => simp [he] at h
      | some p3 =>
        obtain ⟨e, r3⟩ := p3
        have h3 := readExponent_length _ _ he
        simp only [he] at h
        simp at h
        rw [← h]
        simp at h1 h2 h3 ⊢
        omega

theorem readString_length (s : GoString) (r : GoString × GoString)
    (h : readString s = some r) : r.2.length < s.length :=
  readStringAux_length _ s r h

/-- A value that parses with some fuel leaves a shorter input and parses the same with any
fuel that is at least twice the number of bytes it takes. -/
theorem parseValue_step (F : Nat)
    (ihE : ∀ d s vs rest, parseElems F d s = some (vs, rest) →
      rest.length < s.length ∧
        ∀ f, 2 * (s.length - rest.length) ≤ f → parseElems f d s = some (vs, rest))
    (ihM : ∀ d s ms rest, parseMembers F d s = some (ms, rest) →
      rest.length < s.length ∧
        ∀ f, 2 * (s.length - rest.length) ≤ f → parseMembers f d s = some (ms, rest)) :
    ∀ d s v rest, parseValue (F + 1) d s = some (v, rest) →
      rest.length < s.length ∧
        ∀ f, 2 * (s.length - rest.length) ≤ f → parseValue f d s = some (v, rest) := by
  intro d s v rest h
  rw [parseValue] at h
  have hsk := skipSpace_length s
  cases hs : skipSpace s with
  | nil => simp [hs] at h
  | cons c cs =>
    rw [hs] at h hsk
    simp only [List.length_cons] at hsk
    simp only [] at h
    by_cases c1 : c = 0x7B
    · simp only [c1, if_true] at h
      by_cases hdepth : maxNestingDepth < d + 1
      · simp [hdepth] at h
      simp only [hdepth, if_false] at h
      have hsk2 := skipSpace_length cs
      cases hs2 : skipSpace cs with
      | nil => simp [hs2] at h
      | cons e cs1 =>
        rw [hs2] at h hsk2
        simp only [List.length_cons] at hsk2
        simp only [] at h
        by_cases he : e = 0x7D
        · simp only [he, if_true, Option.some.injEq, Prod.mk.injEq] at h
          obtain ⟨hv, hr⟩ := h
          subst hv hr
          refine ⟨by omega, ?_⟩
          intro f hf
          obtain ⟨f1, rfl⟩ : ∃ f1, f = f1 + 1 := ⟨f - 1, by omega⟩
          rw [parseValue]
          simp only [hs]
          simp [c1, hdepth, hs2, he]
        · simp only [he, if_false] at h
          cases hm : parseMembers F (d + 1) (e :: cs1) with
          | none => simp [hm] at h
          | some p =>
            obtain ⟨ms, r⟩ := p
            simp only [hm, Option.map_some', Option.some.injEq, Prod.mk.injEq] at h
            obtain ⟨hv, hr⟩ := h
            subst hv hr
            obtain ⟨hl, hfuel⟩ := ihM _ _ _ _ hm
            simp only [List.length_cons] at hl hfuel
            refine ⟨by omega, ?_⟩
            intro f hf
            obtain ⟨f1, rfl⟩ : ∃ f1, f = f1 + 1 := ⟨f - 1, by omega⟩
            rw [parseValue]
            simp only [hs]
            simp [c1, hdepth, hs2, he]
            rw [hfuel f1 (by omega)]
    simp only [c1, if_false] at h
    by_cases c2 : c = 0x5B
    · simp only [c2, if_true] at h
      by_cases hdepth : maxNestingDepth < d + 1
      · simp [hdepth] at h
      simp only [hdepth, if_false] at h
      have hsk2 := skipSpace_length cs
      cases hs2 : skipSpace cs with
      | nil => simp [hs2] at h
      | cons e cs1 =>
        rw [hs2] at h hsk2
        simp only [List.length_cons] at hsk2
        simp only [] at h
        by_cases he : e = 0x5D
        · simp only [he, if_true, Option.some.injEq, Prod.mk.injEq] at h
          obtain ⟨hv, hr⟩ := h
          subst hv hr
          refine ⟨by omega, ?_⟩
          intro f hf
          obtain ⟨f1, rfl⟩ : ∃ f1, f = f1 + 1 := ⟨f - 1, by omega⟩
          rw [parseValue]
          simp only [hs]
          simp [c1, c2, hdepth, hs2, he]
        · simp only [he, if_false] at h
          cases hm : parseElems F (d + 1) (e :: cs1) with
          | none => simp [hm] at h
          | some p =>
            obtain ⟨vs, r⟩ := p
            simp only [hm, Option.map_some', Option.some.injEq, Prod.mk.injEq] at h
            obtain ⟨hv, hr⟩ := h
            subst hv hr
            obtain ⟨hl, hfuel⟩ := ihE _ _ _ _ hm
            simp only [List.length_cons] at hl hfuel
            refine ⟨by omega, ?_⟩
            intro f hf
            obtain ⟨f1, rfl⟩ : ∃ f1, f = f1 + 1 := ⟨f - 1, by omega⟩
            rw [parseValue]
            simp only [hs]
            simp [c1, c2, hdepth, hs2, he]
            rw [hfuel f1 (by omega)]
    simp only [c2, if_false] at h
    have hscalar : ∀ (x : Option (JSON × GoString)),
        (∀ f1, parseValue (f1 + 1) d s = x) → x = some (v, rest) →
        rest.length < (c :: cs).length →
        rest.length < s.length ∧
          ∀ f, 2 * (s.length - rest.length) ≤ f → parseValue f d s = some (v, rest) := by
      intro x hx hxv hl
      simp only [List.length_cons] at hl
      refine ⟨by omega, ?_⟩
      intro f hf
      obtain ⟨f1, rfl⟩ : ∃ f1, f = f1 + 1 := ⟨f - 1, by omega⟩
      rw [hx f1, hxv]
    by_cases c3 : c = 0x22
    · simp only [c3, if_true] at h
      refine hscalar _ (fun f1 => ?_) h ?_
      · rw [parseValue]
        simp only [hs]
        simp [c1, c2, c3]
      · cases hr : readString cs with
        | none => simp [hr] at h
        | some q =>
          have := readString_length _ _ hr
          simp only [hr, Option.map_some', Option.some.injEq, Prod.mk.injEq] at h
          rw [← h.2]; simp; omega
    simp only [c3, if_false] at h
    by_cases c4 : c = 0x74
    · simp only [c4, if_true] at h
      refine hscalar _ (fun f1 => ?_) h ?_
      · rw [parseValue]
        simp only [hs]
        simp [c1, c2, c3, c4]
      · split at h
        · simp only [Option.some.injEq, Prod.mk.injEq] at h
          rw [← h.2]; simp; omega
        · simp at h
    simp only [c4, if_false] at h
    by_cases c5 : c = 0x66
    · simp only [c5, if_true] at h
      refine hscalar _ (fun f1 => ?_) h ?_
      · rw [parseValue]
        simp only [hs]
        simp [c1, c2, c3, c4, c5]
      · split at h
        · simp only [Option.some.injEq, Prod.mk.injEq] at h
          rw [← h.2]; simp; omega
        · simp at h
    simp only [c5, if_false] at h
    by_cases c6 : c = 0x6E
    · simp only [c6, if_true] at h
      refine hscalar _ (fun f1 => ?_) h ?_
      · rw [parseValue]
        simp only [hs]
        simp [c1, c2, c3, c4, c5, c6]
      · split at h
        · simp only [Option.some.injEq, Prod.mk.injEq] at h
          rw [← h.2]; simp; omega
        · simp at h
    simp only [c6, if_false] at h
    refine hscalar _ (fun f1 => ?_) h ?_
    · rw [parseValue]
      simp only [hs]
      simp [c1, c2, c3, c4, c5, c6]
    · cases hr : readNumber (c :: cs) with
      | none => simp [hr] at h
      | some q =>
        have := readNumber_length _ _ hr
        simp only [hr, Option.map_some', Option.some.injEq, Prod.mk.injEq] at h
        rw [← h.2]; exact this

/-- The elements of an array: the same statement as `parseValue_step`. -/
theorem parseElems_step (F : Nat)
    (ihV : ∀ d s v rest, parseValue F d s = some (v, rest) →
      rest.length < s.length ∧
        ∀ f, 2 * (s.length - rest.length) ≤ f → parseValue f d s = some (v, rest))
    (ihE : ∀ d s vs rest, parseElems F d s = some (vs, rest) →
      rest.length < s.length ∧
        ∀ f, 2 * (s.length - rest.length) ≤ f → parseElems f d s = some (vs, rest)) :
    ∀ d s vs rest, parseElems (F + 1) d s = some (vs, rest) →
      rest.length < s.length ∧
        ∀ f, 2 * (s.length - rest.length) ≤ f → parseElems f d s = some (vs, rest) := by
  intro d s vs rest h
  rw [parseElems] at h
  cases hv : parseValue F d s with
  | none => simp [hv] at h
  | some p =>
    obtain ⟨v, r⟩ := p
    simp only [hv] at h
    obtain ⟨hl, hfuel⟩ := ihV _ _ _ _ hv
    have hsk := skipSpace_length r
    cases hs : skipSpace r with
    | nil => simp [hs] at h
    | cons c r1 =>
      rw [hs] at h hsk
      simp only [List.length_cons] at hsk
      simp only [] at h
      by_cases c1 : c = 0x2C
      · simp only [c1, if_true] at h
        cases he : parseElems F d r1 with
        | none => simp [he] at h
        | some q =>
          obtain ⟨ws, r2⟩ := q
          simp only [he, Option.map_some', Option.some.injEq, Prod.mk.injEq] at h
          obtain ⟨hvs, hr⟩ := h
          subst hvs hr
          obtain ⟨hl2, hfuel2⟩ := ihE _ _ _ _ he
          refine ⟨by omega, ?_⟩
          intro f hf
          obtain ⟨f1, rfl⟩ : ∃ f1, f = f1 + 1 := ⟨f - 1, by omega⟩
          rw [parseElems, hfuel f1 (by omega)]
          simp only [hs]
          simp [c1, hfuel2 f1 (by omega)]
      · simp only [c1, if_false] at h
        by_cases c2 : c = 0x5D
        · simp only [c2, if_true, Option.some.injEq, Prod.mk.injEq] at h
          obtain ⟨hvs, hr⟩ := h
          subst hvs hr
          refine ⟨by omega, ?_⟩
          intro f hf
          obtain ⟨f1, rfl⟩ : ∃ f1, f = f1 + 1 := ⟨f - 1, by omega⟩
          rw [parseElems, hfuel f1 (by omega)]
          simp only [hs]
          simp [c2]
        · simp [c2] at h

/-- The members of an object: the same statement as `parseValue_step`. -/
theorem parseMembers_step (F : Nat)
    (ihV : ∀ d s v rest, parseValue F d s = some (v, rest) →
      rest.length < s.length ∧
        ∀ f, 2 * (s.length - rest.length) ≤ f → parseValue f d s = some (v, rest))
    (ihM : ∀ d s ms rest, parseMembers F d s = some (ms, rest) →
      rest.length < s.length ∧
        ∀ f, 2 * (s.length - rest.length) ≤ f → parseMembers f d s = some (ms, rest)) :
    ∀ d s ms rest, parseMembers (F + 1) d s = some (ms, rest) →
      rest.length < s.length ∧
        ∀ f, 2 * (s.length - rest.length) ≤ f → parseMembers f d s = some (ms, rest) := by
  intro d s ms rest h
  rw [parseMembers] at h
  have hsk := skipSpace_length s
  cases hs : skipSpace s with
  | nil => simp [hs] at h
  | cons q r =>
    rw [hs] at h hsk
    simp only [List.length_cons] at hsk
    simp only [] at h
    by_cases hq : q = 0x22
    · simp only [hq, if_true] at h
      cases hk : readString r with
      | none => simp [hk] at h
      | some p =>
        obtain ⟨key, r1⟩ := p
        simp only [hk] at h
        have hkl := readString_length _ _ hk
        simp only [] at hkl
        have hsk1 := skipSpace_length r1
        cases hs1 : skipSpace r1 with
        | nil => simp [hs1] at h
        | cons c r2 =>
          rw [hs1] at h hsk1
          simp only [List.length_cons] at hsk1
          simp only [] at h
          by_cases hc : c = 0x3A
          · simp only [hc, if_true] at h
            cases hv : parseValue F d r2 with
            | none => simp [hv] at h
            | some pv =>
              obtain ⟨v, r3⟩ := pv
              simp only [hv] at h
              obtain ⟨hl, hfuel⟩ := ihV _ _ _ _ hv
              have hsk3 := skipSpace_length r3
              cases hs3 : skipSpace r3 with
              | nil => simp [hs3] at h
              | cons e r4 =>
                rw [hs3] at h hsk3
                simp only [List.length_cons] at hsk3
                simp only [] at h
                by_cases e1 : e = 0x2C
                · simp only [e1, if_true] at h
                  cases hm : parseMembers F d r4 with
                  | none => simp [hm] at h
                  | some pm =>
                    obtain ⟨ws, r5⟩ := pm
                    simp only [hm, Option.map_some', Option.some.injEq, Prod.mk.injEq] at h
                    obtain ⟨hms, hr⟩ := h
                    subst hms hr
                    obtain ⟨hl2, hfuel2⟩ := ihM _ _ _ _ hm
                    refine ⟨by omega, ?_⟩
                    intro f hf
                    obtain ⟨f1, rfl⟩ : ∃ f1, f = f1 + 1 := ⟨f - 1, by omega⟩
                    rw [parseMembers]
                    simp only [hs]
                    simp [hq, hk, hs1, hc, hfuel f1 (by omega), hs3, e1, hfuel2 f1 (by omega)]
                · simp only [e1, if_false] at h
                  by_cases e2 : e = 0x7D
                  · simp only [e2, if_true, Option.some.injEq, Prod.mk.injEq] at h
                    obtain ⟨hms, hr⟩ := h
                    subst hms hr
                    refine ⟨by omega, ?_⟩
                    intro f hf
                    obtain ⟨f1, rfl⟩ : ∃ f1, f = f1 + 1 := ⟨f - 1, by omega⟩
                    rw [parseMembers]
                    simp only [hs]
                    simp [hq, hk, hs1, hc, hfuel f1 (by omega), hs3, e2]
                  · simp [e2] at h
          · simp [hc] at h
    · simp [hq] at h

/-- Whatever parses with some fuel leaves a shorter input and parses the same with any fuel
that is at least twice the number of bytes it takes. -/
theorem parse_fuel (F : Nat) :
    (∀ d s v rest, parseValue F d s = some (v, rest) →
      rest.length < s.length ∧
        ∀ f, 2 * (s.length - rest.length) ≤ f → parseValue f d s = some (v, rest)) ∧
    (∀ d s vs rest, parseElems F d s = some (vs, rest) →
      rest.length < s.length ∧
        ∀ f, 2 * (s.length - rest.length) ≤ f → parseElems f d s = some (vs, rest)) ∧
    (∀ d s ms rest, parseMembers F d s = some (ms, rest) →
      rest.length < s.length ∧
        ∀ f, 2 * (s.length - rest.length) ≤ f → parseMembers f d s = some (ms, rest)) := by
  induction F with
  | zero =>
    refine ⟨?_, ?_, ?_⟩
    · intro d s v rest h; simp [parseValue] at h
    · intro d s vs rest h; simp [parseElems] at h
    · intro d s ms rest h; simp [parseMembers] at h
  | succ F ih =>
    obtain ⟨ihV, ihE, ihM⟩ := ih
    exact ⟨parseValue_step F ihE ihM, parseElems_step F ihV ihE, parseMembers_step F ihV ihM⟩

/-- The fuel of `Unmarshal` is enough: a text that parses as a whole with any fuel at all is
decoded by `Unmarshal` to the same value, so `Unmarshal` returns `none` only for a text that
no amount of fuel parses. -/
theorem Unmarshal_fuel (F : Nat) (data : GoString) (v : JSON) (rest : GoString)
    (h : parseValue F 0 data = some (v, rest)) (hrest : skipSpace rest = []) :
    Unmarshal data = some v := by
  obtain ⟨hl, hfuel⟩ := (parse_fuel F).1 0 data v rest h
  unfold Unmarshal
  rw [hfuel (2 * data.length + 2) (by omega)]
  simp [hrest]

/-- The fuel of `readString` is enough: a literal that reads with any fuel at all reads the
same with the length of the input. -/
theorem readString_fuel (F : Nat) (s : GoString) (r : GoString × GoString)
    (h : readStringAux F s = some r) : readString s = some r :=
  readStringAux_fuel F s r s.length h (Nat.le_refl _)

/-! ## C4 and C5: the CSRF token -/

/-- C4: when the cookies that the jar returns for the base URL hold no cookie named
`csrfp_token`, `appendCsrfpToken` ends the process with status 1 after logging its message
and returns no request, so no header is set; `isMoCAEnabled` and `enableMoCA` end the same
way, and the list of requests sent is what it was before the call. -/
theorem C4_no_token_is_fatal (w : World) (t : List Event) (request : Request) (user : GoString)
    (h : ∀ c ∈ w.Cookies (sent t), c.Name ≠ bytes "csrfp_token") :
    appendCsrfpToken w request t = Result.exit 1 (t ++ [Event.log noTokenMsg]) ∧
    isMoCAEnabled w t = Result.exit 1 (t ++ [Event.log noTokenMsg]) ∧
    enableMoCA w user t = Result.exit 1 (t ++ [Event.log noTokenMsg]) ∧
    sent (t ++ [Event.log noTokenMsg]) = sent t := by
  have hf := findCookie_absent _ _ h
  refine ⟨?_, isMoCAEnabled_noToken w t hf, enableMoCA_noToken w user t hf, sent_append_log _ _⟩
  simp [appendCsrfpToken_eq, hf]

/-- Witness of C4: a jar that holds only a session cookie. -/
theorem C4_no_token_is_fatal_witness :
    (∀ c ∈ worldNoToken.Cookies (sent []), c.Name ≠ bytes "csrfp_token") ∧
    appendCsrfpToken worldNoToken statusRequest [] = Result.exit 1 [Event.log noTokenMsg] ∧
    isMoCAEnabled worldNoToken [] = Result.exit 1 [Event.log noTokenMsg] ∧
    enableMoCA worldNoToken (bytes "alice") [] = Result.exit 1 [Event.log noTokenMsg] :=
  have h : ∀ c ∈ worldNoToken.Cookies (sent []), c.Name ≠ bytes "csrfp_token" := by
    simp [worldNoToken, sent]; decide
  have hC := C4_no_token_is_fatal worldNoToken [] statusRequest (bytes "alice") h
  ⟨h, hC.1, hC.2.1, hC.2.2.1⟩

/-- C5, counterexample: the jar holds a cookie named `csrfp_token` whose value is the empty
string, and `appendCsrfpToken` ends the process with its error instead of setting the
header. -/
theorem C5_counterexample_empty_value :
    (∃ c ∈ worldEmptyToken.Cookies (sent []), c.Name = bytes "csrfp_token" ∧ c.Value = []) ∧
    appendCsrfpToken worldEmptyToken statusRequest [] =
      Result.exit 1 [Event.log noTokenMsg] := by
  constructor
  · exact ⟨⟨bytes "csrfp_token", []⟩, by simp [worldEmptyToken], rfl, rfl⟩
  · rfl

/-- C5, amended: when the first cookie named `csrfp_token` in the list that the jar returns
has a value that is not the empty string, `appendCsrfpToken` does not end the process, adds
nothing to the trace, and returns the request with the header `csrfp_token` set to that
value, whatever cookies precede or follow it. -/
theorem C5_token_header_set (w : World) (t : List Event) (request : Request)
    (pre post : List Cookie) (c : Cookie)
    (hjar : w.Cookies (sent t) = pre ++ c :: post)
    (hpre : ∀ p ∈ pre, p.Name ≠ bytes "csrfp_token")
    (hname : c.Name = bytes "csrfp_token") (hval : c.Value ≠ []) :
    appendCsrfpToken w request t = Result.ok (request.setHeader "csrfp_token" c.Value) t ∧
    (request.setHeader "csrfp_token" c.Value).Header.Get "csrfp_token" = c.Value := by
  have hf := findCookie_first pre post c _ hpre hname
  constructor
  · simp [appendCsrfpToken_eq, hjar, hf, hval]
  · simp [Request.setHeader, Header.Set, Header.Get, List.find?_append]
    rw [List.find?_eq_none.2]
    · simp
    · intro x hx; simp at hx; simp [hx]

/-- Witness of C5: two cookies carry the name; the value of the first is used. -/
theorem C5_token_header_set_witness :
    appendCsrfpToken worldTwoTokens statusRequest [] =
      Result.ok (statusRequest.setHeader "csrfp_token" (bytes "first")) [] ∧
    (statusRequest.setHeader "csrfp_token" (bytes "first")).Header.Get "csrfp_token"
      = bytes "first" :=
  C5_token_header_set worldTwoTokens [] statusRequest [⟨bytes "PHPSESSID", bytes "s1"⟩]
    [⟨bytes "csrfp_token", bytes "second"⟩] ⟨bytes "csrfp_token", bytes "first"⟩
    rfl (by decide) rfl (by decide)

theorem isMoCAEnabled_answered (w : World) (t : List Event) (body : GoString)
    (h : statusAnswered w t body) :
    isMoCAEnabled w t = decodeStatus body (statusTrace w t) := by
  obtain ⟨htok, response, hdo, hbody⟩ := h
  unfold tokenAt at htok hdo
  rw [isMoCAEnabled_eq]
  simp only [htok, if_false, hdo, hbody, statusTrace, tokenAt]

theorem mainStatusOf_obj (body : GoString) (members : List (GoString × JSON))
    (h : Unmarshal body = some (JSON.obj members)) :
    mainStatusOf body = mapIndex members (bytes "mainStatus") := by
  simp [mainStatusOf, unmarshalMap, h]

theorem mainStatusOf_not_obj (body : GoString)
    (h : ∀ members, Unmarshal body ≠ some (JSON.obj members)) :
    mainStatusOf body = none := by
  unfold mainStatusOf unmarshalMap
  cases hu : Unmarshal body with
  | none => rfl
  | some v =>
    cases v with
    | obj members => exact absurd hu (h members)
    | _ => rfl

theorem eqString_iff (k : JSON) (s : GoString) : k.eqString s = true ↔ k = JSON.str s := by
  cases k <;> simp [JSON.eqString]

/-! ## C1, C2 and C3: the status response -/

/-- C1: let the status request be answered with a body that is a JSON object whose
`mainStatus` is a list.  If the list has at least 3 entries, `isMoCAEnabled` returns a
boolean, having sent its request and logged nothing, and the boolean is true exactly when the
entry at index 2 is the JSON string `"true"`.  If the list has fewer than 3 entries,
`isMoCAEnabled` logs "Received invalid response from router." and the process exits with
status 1. -/
theorem C1_mainStatus_list (w : World) (t : List Event) (body : GoString)
    (members : List (GoString × JSON)) (keys : List JSON)
    (hans : statusAnswered w t body)
    (hobj : Unmarshal body = some (JSON.obj members))
    (hlist : mapIndex members (bytes "mainStatus") = some (JSON.arr keys)) :
    (3 ≤ keys.length →
      ∃ b, isMoCAEnabled w t = Result.ok b (statusTrace w t) ∧
        (b = true ↔ keys[2]? = some (JSON.str (bytes "true")))) ∧
    (keys.length < 3 →
      isMoCAEnabled w t = Result.exit 1
        (statusTrace w t ++ [Event.log "Received invalid response from router."])) := by
  have hm : mainStatusOf body = some (JSON.arr keys) := by
    rw [mainStatusOf_obj body members hobj, hlist]
  rw [isMoCAEnabled_answered w t body hans, decodeStatus_list body keys _ hm]
  constructor
  · intro h3
    have hl : ¬ keys.length < 3 := by omega
    have h2 : 2 < keys.length := by omega
    simp only [hl, if_false, List.getElem?_eq_getElem h2]
    exact ⟨_, rfl, by simp [eqString_iff]⟩
  · intro hl
    simp [hl]

/-- Witness of C1: the body `bodyEnabled`. -/
theorem C1_mainStatus_list_witness :
    ∃ b, isMoCAEnabled (worldRouter 200 bodyEnabled 200)
          (loginTrace (bytes "alice") []) =
        Result.ok b (statusTrace (worldRouter 200 bodyEnabled 200)
          (loginTrace (bytes "alice") [])) ∧
      (b = true ↔
        [JSON.str (bytes "x"), JSON.str (bytes "y"), JSON.str (bytes "true")][2]?
          = some (JSON.str (bytes "true"))) :=
  (C1_mainStatus_list (worldRouter 200 bodyEnabled 200)
    (loginTrace (bytes "alice") []) bodyEnabled
    [(bytes "mainStatus", JSON.arr [JSON.str (bytes "x"), JSON.str (bytes "y"), JSON.str (bytes "true")])]
    [JSON.str (bytes "x"), JSON.str (bytes "y"), JSON.str (bytes "true")]
    ⟨by decide, ⟨_, rfl, rfl⟩⟩ rfl rfl).1 (by decide)

/-- What `isMoCAEnabled` does when `result["mainStatus"]` is not a list: the type assertion
panics. -/
theorem isMoCAEnabled_not_list (w : World) (t : List Event) (body : GoString)
    (hans : statusAnswered w t body)
    (hnot : ∀ keys, mainStatusOf body ≠ some (JSON.arr keys)) :
    isMoCAEnabled w t = Result.exit 2 (statusTrace w t ++ [Event.panic]) := by
  rw [isMoCAEnabled_answered w t body hans, decodeStatus_not_list body _ hnot]

/-- C2, at the failing input: the status request is answered with the object
`{"status":"ok"}`, which has no key `mainStatus`.  `isMoCAEnabled` does not log "Received
invalid response from router." and exit with status 1, as it does for a list that is too
short: the type assertion panics and the process exits with status 2. -/
theorem C2_missing_key_panics :
    unmarshalMap bodyNoKey = some [(bytes "status", JSON.str (bytes "ok"))] ∧
    isMoCAEnabled (worldRouter 200 bodyNoKey 200) (loginTrace (bytes "alice") []) =
      Result.exit 2
        (statusTrace (worldRouter 200 bodyNoKey 200) (loginTrace (bytes "alice") [])
          ++ [Event.panic]) ∧
    isMoCAEnabled (worldRouter 200 bodyNoKey 200) (loginTrace (bytes "alice") []) ≠
      Result.exit 1
        (statusTrace (worldRouter 200 bodyNoKey 200) (loginTrace (bytes "alice") [])
          ++ [Event.log "Received invalid response from router."]) := by
  have h : isMoCAEnabled (worldRouter 200 bodyNoKey 200) (loginTrace (bytes "alice") []) =
      Result.exit 2
        (statusTrace (worldRouter 200 bodyNoKey 200) (loginTrace (bytes "alice") [])
          ++ [Event.panic]) :=
    isMoCAEnabled_not_list _ _ bodyNoKey ⟨by decide, ⟨_, rfl, rfl⟩⟩
      (fun keys hk => by
        have h0 : mainStatusOf bodyNoKey = none := rfl
        rw [h0] at hk
        exact Option.noConfusion hk)
  refine ⟨rfl, h, ?_⟩
  rw [h]
  intro hc
  injection hc with h1 _
  exact absurd h1 (by decide)

/-- C3: let the status request be answered with a body that is not valid JSON (anything
follows a valid value but white space, say) or that is valid JSON but not an object.  Then
the map `result` stays nil, nothing of the body is looked at, and `isMoCAEnabled` ends the
process with a panic and exit status 2; it returns no boolean. -/
theorem C3_invalid_body_ends_process (w : World) (t : List Event) (body : GoString)
    (hans : statusAnswered w t body)
    (hbad : Unmarshal body = none ∨
      ∃ v, Unmarshal body = some v ∧ ∀ members, v ≠ JSON.obj members) :
    unmarshalMap body = none ∧
    isMoCAEnabled w t = Result.exit 2 (statusTrace w t ++ [Event.panic]) ∧
    ∀ b t1, isMoCAEnabled w t ≠ Result.ok b t1 := by
  have hno : ∀ members, Unmarshal body ≠ some (JSON.obj members) := by
    intro members hm
    rcases hbad with h | ⟨v, hv, hne⟩
    · rw [h] at hm; exact Option.noConfusion hm
    · rw [hv] at hm
      exact hne members (Option.some.inj hm)
  have hmap : unmarshalMap body = none := by
    unfold unmarshalMap
    cases hu : Unmarshal body with
    | none => rfl
    | some v =>
      cases v with
      | obj members => exact absurd hu (hno members)
      | _ => rfl
  have hm : mainStatusOf body = none := mainStatusOf_not_obj body hno
  have hp : isMoCAEnabled w t = Result.exit 2 (statusTrace w t ++ [Event.panic]) :=
    isMoCAEnabled_not_list w t body hans (fun keys hk => by
      rw [hm] at hk; exact Option.noConfusion hk)
  refine ⟨hmap, hp, ?_⟩
  intro b t1 hc
  rw [hp] at hc
  exact Result.noConfusion hc

/-- Witness of C3: a complete object with `mainStatus` `["x","y","true"]`, followed by a
stray `x`; nothing of it is used. -/
theorem C3_invalid_body_ends_process_witness :
    unmarshalMap bodyTrailing = none ∧
    isMoCAEnabled (worldRouter 200 bodyTrailing 200) (loginTrace (bytes "alice") []) =
      Result.exit 2
        (statusTrace (worldRouter 200 bodyTrailing 200) (loginTrace (bytes "alice") [])
          ++ [Event.panic]) ∧
    ∀ b t1, isMoCAEnabled (worldRouter 200 bodyTrailing 200) (loginTrace (bytes "alice") [])
      ≠ Result.ok b t1 :=
  C3_invalid_body_ends_process (worldRouter 200 bodyTrailing 200) (loginTrace (bytes "alice") [])
    bodyTrailing ⟨by decide, ⟨_, rfl, rfl⟩⟩ (Or.inl rfl)

/-! ## C7, C8 and C9: the flow of `main` -/

/-- C7: in a run with both credentials set whose login request is answered with status code
`c`, `main` goes on to the status step exactly when `c` is 200.  When `c` is 200 it logs
"Querying MoCA status...", calls `isMoCAEnabled` at the trace of the login, and the rest of
the run is what that call decides: its exit if it ends the process, exit 1 after "MoCA is
already enabled." if it returns true, and the enable step if it returns false.  For every
other code the process exits with status 1 after "Failed to acquire authorization tokens."
without calling `isMoCAEnabled`, and the login request is the only request sent. -/
theorem C7_login_code_gates_status (w : World) (user pass : GoString) (resp : Response)
    (hu : w.LookupEnv "GATEWAY_USERNAME" = some user)
    (hp : w.LookupEnv "GATEWAY_PASSWORD" = some pass)
    (hlogin : w.Do [] (authRequest user pass) = Except.ok resp) :
    (resp.StatusCode = 200 ↔ Event.log "Querying MoCA status..." ∈ (run w).2) ∧
    (resp.StatusCode = 200 → ∃ more, (run w).2 = loginTrace user pass ++ more) ∧
    (resp.StatusCode = 200 →
      run w = match isMoCAEnabled w (loginTrace user pass) with
        | Result.exit c t => (c, t)
        | Result.ok true t => (1, t ++ [Event.log "MoCA is already enabled."])
        | Result.ok false t =>
          match enableMoCA w user (t ++ [Event.log "Attempting to enable MoCA..."]) with
          | Result.exit c t1 => (c, t1)
          | Result.ok code t1 =>
            (0, t1 ++ [Event.log (if code = 200 then "Successfully enabled MoCA."
              else "Failed to enable MoCA.")])) ∧
    (resp.StatusCode = 200 →
      ∃ more, (run w).2 = (isMoCAEnabled w (loginTrace user pass)).trace ++ more) ∧
    (resp.StatusCode ≠ 200 →
      run w = (1, [Event.log "Acquiring authorization tokens...",
        Event.send (authRequest user pass),
        Event.log "Failed to acquire authorization tokens."]) ∧
      sent (run w).2 = [authRequest user pass]) := by
  refine ⟨⟨?_, ?_⟩, run_login_ok_prefix w user pass resp hu hp hlogin,
    run_login_ok w user pass resp hu hp hlogin, ?_, ?_⟩
  · intro hc
    obtain ⟨more, hm⟩ := run_login_ok_prefix w user pass resp hu hp hlogin hc
    rw [hm]
    simp [loginTrace]
  · intro hmem
    by_contra hc
    rw [run_login_refused w user pass resp hu hp hlogin hc] at hmem
    simp at hmem
  · intro hc
    rw [run_login_ok w user pass resp hu hp hlogin hc]
    cases hs : isMoCAEnabled w (loginTrace user pass) with
    | exit c t => exact ⟨[], by simp [Result.trace]⟩
    | ok b t =>
      cases b
      · simp only [Result.trace]
        obtain ⟨m2, h2⟩ := enableMoCA_extends w user
          (t ++ [Event.log "Attempting to enable MoCA..."])
        cases he : enableMoCA w user (t ++ [Event.log "Attempting to enable MoCA..."]) with
        | exit c t1 =>
          rw [he] at h2
          simp only [Result.trace] at h2
          exact ⟨_, by simp only [h2, List.append_assoc]; rfl⟩
        | ok code t1 =>
          rw [he] at h2
          simp only [Result.trace] at h2
          exact ⟨_, by simp only [h2, List.append_assoc]; rfl⟩
      · exact ⟨_, rfl⟩
  · intro hc
    rw [run_login_refused w user pass resp hu hp hlogin hc]
    exact ⟨rfl, rfl⟩

/-- Witness of C7: a router that answers the login with 204 ends the run after the login; a
router that answers it with 200 lets the run go on to `isMoCAEnabled`, whose request is sent
and whose answer `true` ends the run. -/
theorem C7_login_code_gates_status_witness :
    (run (worldRouter 204 bodyDisabled 200) =
      (1, [Event.log "Acquiring authorization tokens...",
        Event.send (authRequest (bytes "alice") []),
        Event.log "Failed to acquire authorization tokens."]) ∧
      sent (run (worldRouter 204 bodyDisabled 200)).2 = [authRequest (bytes "alice") []]) ∧
    run (worldRouter 200 bodyEnabled 200) =
      (1, statusTrace (worldRouter 200 bodyEnabled 200) (loginTrace (bytes "alice") [])
        ++ [Event.log "MoCA is already enabled."]) :=
  ⟨(C7_login_code_gates_status (worldRouter 204 bodyDisabled 200) (bytes "alice") []
      { StatusCode := 204, Body := Except.ok [] } rfl rfl rfl).2.2.2.2 (by decide),
   (C7_login_code_gates_status (worldRouter 200 bodyEnabled 200) (bytes "alice") []
      { StatusCode := 200, Body := Except.ok [] } rfl rfl rfl).2.2.1 rfl⟩

/-- C9: in a run in which the login is answered with 200, `isMoCAEnabled` returns false and
`enableMoCA` returns the status code `c`, the process exits with code 0 whatever `c` is; the
last line of the log is "Successfully enabled MoCA." when `c` is 200 and "Failed to enable
MoCA." otherwise; and the requests sent are the login, the status request and the enable
request, in this order, each once. -/
theorem C9_enable_outcome (w : World) (user pass : GoString) (resp : Response)
    (t t1 : List Event) (c : Int)
    (hu : w.LookupEnv "GATEWAY_USERNAME" = some user)
    (hp : w.LookupEnv "GATEWAY_PASSWORD" = some pass)
    (hlogin : w.Do [] (authRequest user pass) = Except.ok resp)
    (hcode : resp.StatusCode = 200)
    (hstatus : isMoCAEnabled w (loginTrace user pass) = Result.ok false t)
    (henable : enableMoCA w user (t ++ [Event.log "Attempting to enable MoCA..."])
      = Result.ok c t1) :
    ∃ token1 token2,
      run w = (0, [Event.log "Acquiring authorization tokens...",
        Event.send (authRequest user pass),
        Event.log "Querying MoCA status...",
        Event.send (statusRequest.setHeader "csrfp_token" token1),
        Event.log "Attempting to enable MoCA...",
        Event.send ((enableRequest user).setHeader "csrfp_token" token2),
        Event.log (if c = 200 then "Successfully enabled MoCA." else "Failed to enable MoCA.")]) ∧
      sent (run w).2 = [authRequest user pass, statusRequest.setHeader "csrfp_token" token1,
        (enableRequest user).setHeader "csrfp_token" token2] := by
  obtain ⟨token1, _, h1⟩ := isMoCAEnabled_ok w _ _ _ hstatus
  obtain ⟨token2, _, h2⟩ := enableMoCA_ok w user _ _ _ henable
  have hrun := run_login_ok w user pass resp hu hp hlogin hcode
  rw [hstatus] at hrun
  simp only [henable] at hrun
  refine ⟨token1, token2, ?_⟩
  rw [hrun, h2, h1]
  constructor
  · simp [loginTrace]
  · simp [loginTrace, sent]

/-- Witness of C9: the router rejects the enable request with 500 and the exit code is 0. -/
theorem C9_enable_outcome_witness :
    ∃ token1 token2,
      run (worldRouter 200 bodyDisabled 500) = (0, [Event.log "Acquiring authorization tokens...",
        Event.send (authRequest (bytes "alice") []),
        Event.log "Querying MoCA status...",
        Event.send (statusRequest.setHeader "csrfp_token" token1),
        Event.log "Attempting to enable MoCA...",
        Event.send ((enableRequest (bytes "alice")).setHeader "csrfp_token" token2),
        Event.log (if (500 : Int) = 200 then "Successfully enabled MoCA."
          else "Failed to enable MoCA.")]) ∧
      sent (run (worldRouter 200 bodyDisabled 500)).2 =
        [authRequest (bytes "alice") [], statusRequest.setHeader "csrfp_token" token1,
          (enableRequest (bytes "alice")).setHeader "csrfp_token" token2] :=
  C9_enable_outcome (worldRouter 200 bodyDisabled 500) (bytes "alice") []
    { StatusCode := 200, Body := Except.ok [] } _ _ 500 rfl rfl rfl rfl rfl rfl

/-- C8: in a run in which the login is answered with 200 and `isMoCAEnabled` returns true,
the process logs "MoCA is already enabled." and exits with status 1; the requests sent are
the login and the status request, and none goes to the URL of the enable request.  In any
run whatever, a request to the URL of the enable request is sent only if `isMoCAEnabled`,
called after the login, returned false. -/
theorem C8_already_enabled (w : World) (user pass : GoString) (resp : Response)
    (t : List Event)
    (hu : w.LookupEnv "GATEWAY_USERNAME" = some user)
    (hp : w.LookupEnv "GATEWAY_PASSWORD" = some pass)
    (hlogin : w.Do [] (authRequest user pass) = Except.ok resp)
    (hcode : resp.StatusCode = 200)
    (hstatus : isMoCAEnabled w (loginTrace user pass) = Result.ok true t) :
    run w = (1, t ++ [Event.log "MoCA is already enabled."]) ∧
    (∃ token, sent (run w).2 =
      [authRequest user pass, statusRequest.setHeader "csrfp_token" token]) ∧
    (∀ r ∈ sent (run w).2,
      r.URL ≠ "http://192.168.0.1/actionHandler/ajaxSet_moca_config.php") ∧
    (∀ (w1 : World) (r : Request), r ∈ sent (run w1).2 →
      r.URL = "http://192.168.0.1/actionHandler/ajaxSet_moca_config.php" →
      ∃ user1 pass1 t1, w1.LookupEnv "GATEWAY_USERNAME" = some user1 ∧
        w1.LookupEnv "GATEWAY_PASSWORD" = some pass1 ∧
        isMoCAEnabled w1 (loginTrace user1 pass1) = Result.ok false t1) := by
  have hrun := run_login_ok w user pass resp hu hp hlogin hcode
  rw [hstatus] at hrun
  simp only [] at hrun
  refine ⟨hrun, ?_, ?_, no_enable_unless_false⟩
  · obtain ⟨token, _, h1⟩ := isMoCAEnabled_ok w _ _ _ hstatus
    exact ⟨token, by rw [hrun, h1]; simp [loginTrace, sent]⟩
  · intro r hr hurl
    obtain ⟨user1, pass1, t1, hu1, hp1, h1⟩ := no_enable_unless_false w r hr hurl
    rw [hu] at hu1
    rw [hp] at hp1
    cases hu1
    cases hp1
    rw [hstatus] at h1
    simp at h1

/-- Witness of C8: the router reports `"true"` at index 2 of `mainStatus`. -/
theorem C8_already_enabled_witness :
    run (worldRouter 200 bodyEnabled 200) =
      (1, statusTrace (worldRouter 200 bodyEnabled 200) (loginTrace (bytes "alice") [])
        ++ [Event.log "MoCA is already enabled."]) ∧
    ∀ r ∈ sent (run (worldRouter 200 bodyEnabled 200)).2,
      r.URL ≠ "http://192.168.0.1/actionHandler/ajaxSet_moca_config.php" :=
  have h := C8_already_enabled (worldRouter 200 bodyEnabled 200) (bytes "alice") []
    { StatusCode := 200, Body := Except.ok [] }
    (statusTrace (worldRouter 200 bodyEnabled 200) (loginTrace (bytes "alice") []))
    rfl rfl rfl rfl rfl
  ⟨h.1, h.2.2.1⟩

/-! ## C6: the credentials -/

/-- C6: when both `GATEWAY_USERNAME` and `GATEWAY_PASSWORD` are set (the empty string
counts), `main` logs "Acquiring authorization tokens..." and sends the login request built
from the two values, whose body form-decodes to exactly these values; when
`GATEWAY_USERNAME` is absent, or it is set and `GATEWAY_PASSWORD` is absent, the process
exits with status 1 having logged only "Missing environment variable: " and the name of that
variable; and a request is sent at all exactly when both are set. -/
theorem C6_credentials_required (w : World) :
    (∀ user pass, w.LookupEnv "GATEWAY_USERNAME" = some user →
      w.LookupEnv "GATEWAY_PASSWORD" = some pass →
      (∃ more, (run w).2 = Event.log "Acquiring authorization tokens..." ::
        Event.send (authRequest user pass) :: more) ∧
      (isBytes user → isBytes pass → ParseQuery (authRequest user pass).Body =
        ([(bytes "password", [pass]), (bytes "username", [user])], true))) ∧
    (w.LookupEnv "GATEWAY_USERNAME" = none →
      run w = (1, [Event.log "Missing environment variable: GATEWAY_USERNAME"])) ∧
    (w.LookupEnv "GATEWAY_USERNAME" ≠ none → w.LookupEnv "GATEWAY_PASSWORD" = none →
      run w = (1, [Event.log "Missing environment variable: GATEWAY_PASSWORD"])) ∧
    (sent (run w).2 ≠ [] ↔
      (w.LookupEnv "GATEWAY_USERNAME").isSome = true ∧
      (w.LookupEnv "GATEWAY_PASSWORD").isSome = true) := by
  have hboth : ∀ user pass, w.LookupEnv "GATEWAY_USERNAME" = some user →
      w.LookupEnv "GATEWAY_PASSWORD" = some pass →
      ∃ more, (run w).2 = Event.log "Acquiring authorization tokens..." ::
        Event.send (authRequest user pass) :: more := by
    intro user pass hu hp
    cases hlogin : w.Do [] (authRequest user pass) with
    | error e =>
      rw [run_eq, main_eq]
      simp only [hu, hp, hlogin]
      exact ⟨_, rfl⟩
    | ok resp =>
      by_cases hcode : resp.StatusCode = 200
      · obtain ⟨more, hm⟩ := run_login_ok_prefix w user pass resp hu hp hlogin hcode
        exact ⟨_, by rw [hm]; rfl⟩
      · rw [run_login_refused w user pass resp hu hp hlogin hcode]
        exact ⟨_, rfl⟩
  have hnoUser : w.LookupEnv "GATEWAY_USERNAME" = none →
      run w = (1, [Event.log "Missing environment variable: GATEWAY_USERNAME"]) := by
    intro hu
    rw [run_eq, main_eq]
    simp only [hu]
  have hnoPass : w.LookupEnv "GATEWAY_USERNAME" ≠ none → w.LookupEnv "GATEWAY_PASSWORD" = none →
      run w = (1, [Event.log "Missing environment variable: GATEWAY_PASSWORD"]) := by
    intro hu hp
    rw [run_eq, main_eq]
    cases hu1 : w.LookupEnv "GATEWAY_USERNAME" with
    | none => exact absurd hu1 hu
    | some user => simp only [hp]
  refine ⟨fun user pass hu hp => ⟨hboth user pass hu hp, ParseQuery_authRequest user pass⟩,
    hnoUser, hnoPass, ?_⟩
  cases hu : w.LookupEnv "GATEWAY_USERNAME" with
  | none =>
    rw [hnoUser hu]
    simp [sent]
  | some user =>
    cases hp : w.LookupEnv "GATEWAY_PASSWORD" with
    | none =>
      rw [hnoPass (by rw [hu]; simp) hp]
      simp [sent]
    | some pass =>
      obtain ⟨more, hm⟩ := hboth user pass hu hp
      rw [hm]
      simp [sent]

/-- Witness of C6: without `GATEWAY_PASSWORD` the run ends at once, naming the variable; with
both set, the password being the empty string, the login request is sent. -/
theorem C6_credentials_required_witness :
    run worldNoPassword = (1, [Event.log "Missing environment variable: GATEWAY_PASSWORD"]) ∧
    ∃ more, (run (worldRouter 200 bodyDisabled 200)).2 =
      Event.log "Acquiring authorization tokens..." ::
        Event.send (authRequest (bytes "alice") []) :: more :=
  ⟨(C6_credentials_required worldNoPassword).2.2.1 (by decide) rfl,
   ((C6_credentials_required (worldRouter 200 bodyDisabled 200)).1 (bytes "alice") []
      rfl rfl).1⟩

/-! ## C10: the body of the enable request -/

/-- C10, counterexample: for the user name that is the single byte 0xFF, which is not valid
UTF-8, the field `configInfo` decodes to an object whose `thisUser` is U+FFFD (the bytes EF BF
BD), not the user name. -/
theorem C10_counterexample_invalid_utf8 :
    ParseQuery (enableBody [0xFF]) = ([(bytes "configInfo", [Marshal (configData [0xFF])])], true) ∧
    Unmarshal (Marshal (configData [0xFF])) =
      some (JSON.obj [(bytes "moca_enable", JSON.str (bytes "true")),
        (bytes "thisUser", JSON.str [0xEF, 0xBF, 0xBD])]) ∧
    Unmarshal (Marshal (configData [0xFF])) ≠
      some (JSON.obj [(bytes "moca_enable", JSON.str (bytes "true")),
        (bytes "thisUser", JSON.str [0xFF])]) := by
  have h : Unmarshal (Marshal (configData [0xFF])) =
      some (JSON.obj [(bytes "moca_enable", JSON.str (bytes "true")),
        (bytes "thisUser", JSON.str [0xEF, 0xBF, 0xBD])]) := by rfl
  refine ⟨by rfl, h, ?_⟩
  rw [h]
  intro hc
  simp at hc

/-- C10, amended: for every user name that is valid UTF-8, form-decoding the body built by
`enableMoCA` yields exactly one field, `configInfo`, with one value, the JSON text; that text
decodes to an object with exactly the two entries `moca_enable` = "true" and `thisUser` =
the user name; and for the user name "alice" the text is
`{"moca_enable":"true","thisUser":"alice"}`. -/
theorem C10_enable_body_roundtrip (user : GoString) (hvalid : ValidString user = true) :
    ParseQuery (enableBody user) = ([(bytes "configInfo", [Marshal (configData user)])], true) ∧
    Unmarshal (Marshal (configData user)) =
      some (JSON.obj [(bytes "moca_enable", JSON.str (bytes "true")),
        (bytes "thisUser", JSON.str user)]) ∧
    Marshal (configData (bytes "alice")) =
      bytes "\x7b\"moca_enable\":\"true\",\"thisUser\":\"alice\"\x7d" := by
  refine ⟨ParseQuery_enableBody user, ?_, by decide⟩
  rw [Marshal_configData]
  exact Unmarshal_two_entries _ _ _ _ (by decide) (by decide) (by decide) hvalid

/-- Witness of C10: a user name with a quote, a backslash, `<`, `&`, `=`, a space, a line
feed, `é` and U+2028. -/
theorem C10_enable_body_roundtrip_witness :
    ValidString userOdd = true ∧
    ParseQuery (enableBody userOdd) = ([(bytes "configInfo", [Marshal (configData userOdd)])], true) ∧
    Unmarshal (Marshal (configData userOdd)) =
      some (JSON.obj [(bytes "moca_enable", JSON.str (bytes "true")),
        (bytes "thisUser", JSON.str userOdd)]) :=
  ⟨by decide, (C10_enable_body_roundtrip userOdd (by decide)).1,
    (C10_enable_body_roundtrip userOdd (by decide)).2.1⟩

end MoCA
